import Mathlib

/-!
# Verification of the FinOps two-stage recommendation-enrichment pipeline

Shallow embedding, in Lean 4, of the decision logic of the repository:

* `src/lambda/compute_optimizer/eks_filter.py` — EKS/Kubernetes tag classifier;
* `src/lambda/compute_optimizer/cost_calculator.py` — on-demand price lookup
  with a per-instance cache, and price enrichment of recommendation records;
* `src/part2/bedrock_validator/allowlist_checker.py` — allow-list lookup;
* `src/part2/bedrock_validator/bedrock_client.py` — model-alias resolution and
  the JSON response codec (markdown fence stripping);
* `src/part2/bedrock_validator/recommendation_enricher.py` — the Stage-2
  validation state machine (approve / AI alternative / AI failure);
* `src/part2/handler.py` — the Stage-2 trigger guards and timestamp
  extraction.

Modelling conventions:

* Python `float` values are modelled as exact rationals (`ℚ`).  Python's
  `round(x, n)` (banker's rounding on binary doubles) is modelled as decimal
  rounding on `ℚ` with the half-up tie rule; no theorem or counterexample in
  this file evaluates `round` at a tie or within binary-double rounding noise
  of one, so the tie rule and the binary/decimal gap are never load-bearing.
* Python dicts (the duck-typed record shape used by Stage 2) are modelled as
  association lists with Python's semantics for `get`, membership and
  item assignment (replace in place when the key exists, else append).
* External collaborators (pricing API, Bedrock, `json.loads`) are modelled as
  function parameters, matching the spec's treatment of them as opaque keyed
  sources.
-/

namespace Finops

/-! ## Python-value primitives -/

/-- Python `round(x, n)` modelled on exact rationals: decimal rounding to `n`
fractional digits (ties resolved upward via Mathlib's `round`). -/
def pyRound (n : ℕ) (x : ℚ) : ℚ :=
  ((round (x * (10 : ℚ) ^ n) : ℤ) : ℚ) / (10 : ℚ) ^ n

/-- A JSON-ish scalar value stored in a record dict: a string or a number.
Numbers (Python ints and floats) are modelled as exact rationals. -/
inductive Val where
  | s : String → Val
  | q : ℚ → Val
deriving DecidableEq, Repr

/-- A Python dict with string keys, as an association list in insertion
order.  Real dicts have unique keys; lookups read the first occurrence. -/
abbrev Rec := List (String × Val)

/-- Python `d[k]` as an optional lookup (first occurrence). -/
def dlookup (r : Rec) (k : String) : Option Val :=
  (r.find? (fun p => p.1 == k)).map Prod.snd

/-- Python `d.get(k, default)`. -/
def dget (r : Rec) (k : String) (d : Val) : Val :=
  (dlookup r k).getD d

/-- Python `d[k] = v`: replace the entry in place when the key exists,
else append at the end (dict insertion order). -/
def dset : Rec → String → Val → Rec
  | [], k, v => [(k, v)]
  | p :: t, k, v => if p.1 == k then (k, v) :: t else p :: dset t k v

/-- A sequence of Python item assignments `d[k] = v`, leftmost first. -/
def setFields (r : Rec) (kvs : List (String × Val)) : Rec :=
  kvs.foldl (fun a kv => dset a kv.1 kv.2) r

/-- The value the last assignment to `k` in `kvs` would leave, if any. -/
def lastVal : List (String × Val) → String → Option Val
  | [], _ => none
  | p :: t, k =>
    match lastVal t k with
    | some v => some v
    | none => if p.1 == k then some p.2 else none

/-- Left-biased choice on optional values. -/
def optOr : Option Val → Option Val → Option Val
  | some v, _ => some v
  | none, o => o

/-- Python `float(x)` on a record value.  A numeric value converts to itself.
`float` of a string parses decimal text or raises `ValueError`; the records
this pipeline reads carry their prices as JSON numbers, every theorem below
hypothesises numeric-or-absent price fields, and the numeric-string coercion
is therefore modelled as the failing case only. -/
def pyFloat : Val → Option ℚ
  | .q v => some v
  | .s _ => none

theorem dlookup_cons (a : String × Val) (t : Rec) (k : String) :
    dlookup (a :: t) k = if a.1 == k then some a.2 else dlookup t k := by
  by_cases h : a.1 == k
  · simp [dlookup, List.find?, h]
  · simp only [dlookup, List.find?]
    rw [if_neg (by simpa using h)]
    simp [h]

theorem dlookup_dset (r : Rec) (k0 : String) (v0 : Val) (k : String) :
    dlookup (dset r k0 v0) k = if k0 == k then some v0 else dlookup r k := by
  induction r with
  | nil =>
    simp only [dset]
    rw [dlookup_cons]
  | cons a t ih =>
    simp only [dset]
    by_cases ha : a.1 == k0
    · have ha' : a.1 = k0 := by simpa using ha
      rw [if_pos ha, dlookup_cons, dlookup_cons, ha']
      by_cases hk : k0 == k
      · simp [hk]
      · simp [hk]
    · rw [if_neg ha, dlookup_cons, dlookup_cons, ih]
      by_cases hak : a.1 == k
      · have hak' : a.1 = k := by simpa using hak
        have hk0 : (k0 == k) = false := by
          apply beq_eq_false_iff_ne.mpr
          intro h
          exact ha (by rw [hak', ← h]; exact beq_self_eq_true k0)
        simp [hak, hk0]
      · simp [hak]

theorem dlookup_setFields (kvs : List (String × Val)) (r : Rec) (k : String) :
    dlookup (setFields r kvs) k = optOr (lastVal kvs k) (dlookup r k) := by
  induction kvs generalizing r with
  | nil => simp [setFields, lastVal, optOr]
  | cons p t ih =>
    have step : setFields r (p :: t) = setFields (dset r p.1 p.2) t := by
      simp [setFields]
    rw [step, ih, dlookup_dset]
    cases h : lastVal t k with
    | some v => simp [lastVal, h, optOr]
    | none =>
      by_cases hk : p.1 == k
      · simp [lastVal, h, hk, optOr]
      · simp [lastVal, h, hk, optOr]

/-! ## `eks_filter.py` — the EKS/Kubernetes classifier -/

/-- The `EKS_TAG_EXACT_KEYS` (eks_filter.py). -/
def EKS_TAG_EXACT_KEYS : List String :=
  ["eks:cluster-name", "eks:nodegroup-name", "aws:eks:cluster-name"]

/-- The `EKS_TAG_PREFIXES` (eks_filter.py). -/
def EKS_TAG_PREFIXES : List String :=
  ["kubernetes.io/cluster/", "k8s.io/cluster/"]

/-- A tag map: key-value pairs of an instance. -/
abbrev Tags := List (String × String)

/-- The `EKSFilter.is_eks_instance`: the loop over tag keys returns `True` at the
first key whose lowercase form is in the lowered exact-key set or starts with
one of the (lowered) marker prefixes. -/
def is_eks_instance (tags : Tags) : Bool :=
  tags.any (fun kv =>
    (EKS_TAG_EXACT_KEYS.map String.toLower).contains kv.1.toLower
      || EKS_TAG_PREFIXES.any (fun p => kv.1.toLower.startsWith p.toLower))

/-- A Stage-1 recommendation record as seen by the filter: the fields the
filter reads (`tags`) and logs (`instance_id`, `instance_name`). -/
structure S1Rec where
  instance_id : String
  instance_name : String
  tags : Tags
deriving DecidableEq, Repr

/-- The `EKSFilter.filter_recommendations`: the loop appending each record to
`non_eks` or `eks`. -/
def filter_recommendations : List S1Rec → List S1Rec × List S1Rec
  | [] => ([], [])
  | r :: t =>
    let rest := filter_recommendations t
    if is_eks_instance r.tags then (rest.1, r :: rest.2)
    else (r :: rest.1, rest.2)

/-! ## `cost_calculator.py` — price lookup with cache, price enrichment -/

/-- The `MONTHLY_HOURS` (cost_calculator.py). -/
def MONTHLY_HOURS : ℚ := 730

/-- A Stage-1 recommendation record as seen by the cost calculator: the two
instance-type keys it reads and the five numeric fields it writes. -/
structure PRec where
  current_instance_type : String
  recommended_instance_type : String
  current_instance_price : ℚ
  recommended_instance_price : ℚ
  current_on_demand_price : ℚ
  recommended_on_demand_price : ℚ
  price_difference : ℚ
deriving DecidableEq, Repr

/-- First-occurrence lookup in the price cache. -/
def lookupRat (cache : List (String × ℚ)) (k : String) : Option ℚ :=
  (cache.find? (fun p => p.1 == k)).map Prod.snd

/-- A `CostCalculator` instance: its price cache (`self._price_cache`) plus
the external price source (`self._pricing_client.get_products` and the
response scan), abstracted as a keyed lookup returning the first positive
on-demand unit price when one exists and `none` when the lookup finds no
positive price or errors. -/
structure CostCalc where
  cache : List (String × ℚ)
  fetch : String → Option ℚ

/-- The `CostCalculator.get_on_demand_price`: cache hit first, then the
empty-type short-circuit, then the external lookup (caching the found price,
or `0.0` on a miss or error).  The returned `Bool` records whether the
external source was queried. -/
def get_on_demand_price (c : CostCalc) (t : String) : ℚ × CostCalc × Bool :=
  match lookupRat c.cache t with
  | some p => (p, c, false)
  | none =>
    if t = "" then (0, c, false)
    else
      match c.fetch t with
      | some p => (p, { c with cache := (t, p) :: c.cache }, true)
      | none => (0, { c with cache := (t, 0) :: c.cache }, true)

/-- The price `get_on_demand_price` resolves for a type key against a given
calculator state: the cached value if present, else `0` for the empty key,
else the fetched price (`0` when the source has none). -/
def priceOf (c : CostCalc) (t : String) : ℚ :=
  match lookupRat c.cache t with
  | some p => p
  | none => if t = "" then 0 else (c.fetch t).getD 0

/-- The query log of one call: the type key when the external source was
queried, nothing otherwise. -/
def qlog (b : Bool) (t : String) : List String :=
  if b then [t] else []

/-- A sequence of `get_on_demand_price` calls threading the calculator state,
returning the final state and the log of externally-queried keys. -/
def callSeq (c : CostCalc) : List String → CostCalc × List String
  | [] => (c, [])
  | t :: ts =>
    let r := get_on_demand_price c t
    let rest := callSeq r.2.1 ts
    (rest.1, qlog r.2.2 t ++ rest.2)

/-- The de-duplicated union of truthy current and recommended instance-type
keys of a batch (`instance_types = set()` accumulation in
`enrich_recommendations`; Python's set iteration order is arbitrary, and
immaterial here because each key's lookup is independent — modelled as
first-occurrence order). -/
def collectTypes (recs : List PRec) : List String :=
  (recs.flatMap (fun r =>
    (if r.current_instance_type ≠ "" then [r.current_instance_type] else []) ++
      (if r.recommended_instance_type ≠ "" then [r.recommended_instance_type] else []))).dedup

/-- The per-record enrichment loop of `enrich_recommendations`: two price
lookups per record, then the six derived numeric fields with the source's
rounding.  Also returns the final state and the log of externally-queried
keys. -/
def enrichLoop (c : CostCalc) : List PRec → List PRec × CostCalc × List String
  | [] => ([], c, [])
  | r :: rest =>
    let pc := get_on_demand_price c r.current_instance_type
    let pr := get_on_demand_price pc.2.1 r.recommended_instance_type
    let curMonthly := pyRound 2 (pc.1 * MONTHLY_HOURS)
    let recMonthly := pyRound 2 (pr.1 * MONTHLY_HOURS)
    let r2 : PRec :=
      { r with
        current_instance_price := pyRound 6 pc.1
        recommended_instance_price := pyRound 6 pr.1
        current_on_demand_price := curMonthly
        recommended_on_demand_price := recMonthly
        price_difference := pyRound 2 (curMonthly - recMonthly) }
    let res := enrichLoop pr.2.1 rest
    (r2 :: res.1, res.2.1,
      qlog pc.2.2 r.current_instance_type ++
        qlog pr.2.2 r.recommended_instance_type ++ res.2.2)

/-- The `CostCalculator.enrich_recommendations`: pre-warm the cache over the
de-duplicated type keys, then enrich each record in order.  Returns the
enriched records, the final state, and the external-query log. -/
def enrich_recommendations (c : CostCalc) (recs : List PRec) :
    List PRec × CostCalc × List String :=
  let pw := callSeq c (collectTypes recs)
  let lp := enrichLoop pw.1 recs
  (lp.1, lp.2.1, pw.2 ++ lp.2.2)

/-- One public operation on a `CostCalculator` instance. -/
inductive CalcOp where
  | priceCall (t : String)
  | enrichCall (recs : List PRec)

/-- Run one operation, returning the new state and its external-query log. -/
def runOp (c : CostCalc) : CalcOp → CostCalc × List String
  | .priceCall t =>
    let r := get_on_demand_price c t
    (r.2.1, qlog r.2.2 t)
  | .enrichCall recs =>
    let r := enrich_recommendations c recs
    (r.2.1, r.2.2)

/-- Run a sequence of operations against one calculator instance. -/
def runOps (c : CostCalc) : List CalcOp → CostCalc × List String
  | [] => (c, [])
  | op :: ops =>
    let r := runOp c op
    let rest := runOps r.1 ops
    (rest.1, r.2 ++ rest.2)

/-! ## `allowlist_checker.py` — the loaded allow-list -/

/-- Tier info stored per allowed instance type
(`AllowListChecker._type_to_tier` values). -/
structure Tier where
  tier_name : String
  discount_percent : ℚ
  family : String
  category : String
deriving DecidableEq, Repr

/-- The loaded allow-list: instance type → tier info. -/
abbrev AllowList := List (String × Tier)

/-- The `AllowListChecker.get_tier` on a string key. -/
def lookupTier (allow : AllowList) (t : String) : Option Tier :=
  (allow.find? (fun p => p.1 == t)).map Prod.snd

/-- The `get_tier` applied to a record value: the dict is keyed by strings, so a
non-string value matches nothing. -/
def tierOf (allow : AllowList) : Val → Option Tier
  | .s t => lookupTier allow t
  | _ => none

/-- The `AllowListChecker.is_allowed` applied to a record value. -/
def isAllowedVal (allow : AllowList) (v : Val) : Bool :=
  (tierOf allow v).isSome

/-! ## `bedrock_client.py` — model aliases and outcomes -/

/-- The `MODEL_ALIASES` resolution in `BedrockClient.__init__`:
`MODEL_ALIASES.get(model_id, model_id)`. -/
def resolveModelId (m : String) : String :=
  if m = "claude" then "anthropic.claude-3-5-sonnet-20241022-v2:0"
  else if m = "nova" then "amazon.nova-pro-v1:0"
  else m

/-- One alternative in a parsed Bedrock response
(`{instance_type, reason, rank}`). -/
structure Alt where
  instance_type : String
  reason : String
  rank : ℕ
deriving DecidableEq, Repr

/-- A parsed Bedrock response
(`{alternatives, analysis_summary, confidence}`). -/
structure BedrockResult where
  alternatives : List Alt
  analysis_summary : String
  confidence : String
deriving DecidableEq, Repr

/-- The outcome of `BedrockClient.invoke` for one request: a parsed result,
or a failure (`err` covers the transport error, the empty-response
`ValueError` and the JSON-parse `ValueError` uniformly — the enricher's
`except Exception` treats them identically). -/
inductive BedrockOutcome where
  | ok : BedrockResult → BedrockOutcome
  | err : BedrockOutcome
deriving DecidableEq, Repr

/-! ## `recommendation_enricher.py` — the Stage-2 state machine -/

/-- A `RecommendationEnricher` with its collaborators: the loaded allow-list,
the resolved Bedrock model id, and the Bedrock call outcome per record (the
prompt is a pure function of the record and the allow-list, so the
collaborator is modelled as a function of the record). -/
structure Enricher where
  allow : AllowList
  modelId : String
  bed : Rec → BedrockOutcome

/-- The ten keys Stage-2 enrichment assigns on the copied record, in
assignment order (identical across the three branches). -/
def enrichmentKeys : List String :=
  ["validation_status", "final_recommendation", "discount_tier_name",
   "discount_percent", "discounted_monthly_price",
   "estimated_monthly_savings_with_discount", "ai_alternatives",
   "ai_analysis_summary", "ai_confidence", "bedrock_model"]

/-- The `RecommendationEnricher._approve_allowed`.  `none` models the
uncaught `ValueError` Python would raise if `float()` met a non-numeric
string price (this branch has no `try`). -/
def approve_allowed (allow : AllowList) (rec : Rec) : Option Rec := do
  let recType := dget rec "Recommended Instance Type" (Val.s "")
  let tier := tierOf allow recType
  let tierName : String := match tier with | some t => t.tier_name | none => ""
  let discountPercent : ℚ := match tier with | some t => t.discount_percent | none => 0
  let recommendedMonthly ←
    pyFloat (dget rec "Recommended Monthly On-Demand Price (USD)" (Val.q 0))
  let discountedPrice := pyRound 2 (recommendedMonthly * (1 - discountPercent / 100))
  let currentMonthly ←
    pyFloat (dget rec "Current Monthly On-Demand Price (USD)" (Val.q 0))
  some (setFields rec
    [("validation_status", Val.s "Approved (Allowed Instance)"),
     ("final_recommendation", recType),
     ("discount_tier_name", Val.s tierName),
     ("discount_percent", Val.q discountPercent),
     ("discounted_monthly_price", Val.q discountedPrice),
     ("estimated_monthly_savings_with_discount",
       Val.q (pyRound 2 (currentMonthly - discountedPrice))),
     ("ai_alternatives", Val.s ""),
     ("ai_analysis_summary",
       Val.s "Instance type is pre-approved in the organization's allow-list."),
     ("ai_confidence", Val.s "high"),
     ("bedrock_model", Val.s "")])

/-- The `except Exception` branch of `_validate_with_bedrock`: every key a
partially-run `try` block may have assigned is reassigned here, in the same
order, so the final dict is as if only these assignments ran. -/
def failedRec (modelId : String) (rec : Rec) : Rec :=
  setFields rec
    [("validation_status", Val.s "AI Validation Failed"),
     ("final_recommendation", dget rec "Recommended Instance Type" (Val.s "")),
     ("discount_tier_name", Val.s ""),
     ("discount_percent", Val.q 0),
     ("discounted_monthly_price", Val.q 0),
     ("estimated_monthly_savings_with_discount", Val.q 0),
     ("ai_alternatives", Val.s ""),
     ("ai_analysis_summary",
       Val.s "Bedrock AI validation failed. Using original CO recommendation."),
     ("ai_confidence", Val.s ""),
     ("bedrock_model", Val.s modelId)]

/-- One rendered alternative:
`f"#{rank}: {instance_type} — {reason}"`. -/
def renderAlt (a : Alt) : String :=
  "#" ++ toString a.rank ++ ": " ++ a.instance_type ++ " — " ++ a.reason

/-- The `RecommendationEnricher._validate_with_bedrock`: build the prompt (a
pure template, cannot fail), invoke Bedrock, require at least one
alternative, convert the two prices, fill the success fields; any failure on
that path (transport, empty/unparseable response, zero alternatives, or a
`float()` error) lands in the `except` branch. -/
def validate_with_bedrock (e : Enricher) (rec : Rec) : Rec :=
  match e.bed rec with
  | .err => failedRec e.modelId rec
  | .ok result =>
    match result.alternatives with
    | [] => failedRec e.modelId rec
    | best :: _ =>
      let tier := lookupTier e.allow best.instance_type
      let tierName : String := match tier with | some t => t.tier_name | none => ""
      let discountPercent : ℚ :=
        match tier with | some t => t.discount_percent | none => 0
      match pyFloat (dget rec "Recommended Monthly On-Demand Price (USD)" (Val.q 0)),
          pyFloat (dget rec "Current Monthly On-Demand Price (USD)" (Val.q 0)) with
      | some recommendedMonthly, some currentMonthly =>
        let discountedPrice :=
          pyRound 2 (recommendedMonthly * (1 - discountPercent / 100))
        setFields rec
          [("validation_status", Val.s "AI-Recommended Alternative"),
           ("final_recommendation", Val.s best.instance_type),
           ("discount_tier_name", Val.s tierName),
           ("discount_percent", Val.q discountPercent),
           ("discounted_monthly_price", Val.q discountedPrice),
           ("estimated_monthly_savings_with_discount",
             Val.q (pyRound 2 (currentMonthly - discountedPrice))),
           ("ai_alternatives",
             Val.s (String.intercalate "; "
               ((result.alternatives.take 3).map renderAlt))),
           ("ai_analysis_summary", Val.s result.analysis_summary),
           ("ai_confidence", Val.s result.confidence),
           ("bedrock_model", Val.s e.modelId)]
      | _, _ => failedRec e.modelId rec

/-- The per-record branch of `RecommendationEnricher.enrich_all`:
`is_allowed(rec_type)` is the sole branch condition. -/
def enrichOne (e : Enricher) (rec : Rec) : Option Rec :=
  if isAllowedVal e.allow (dget rec "Recommended Instance Type" (Val.s "")) then
    approve_allowed e.allow rec
  else
    some (validate_with_bedrock e rec)

/-- The `RecommendationEnricher.enrich_all`: the sequential loop appending one
enriched record per input record; `none` models an uncaught exception
aborting the batch. -/
def enrich_all (e : Enricher) : List Rec → Option (List Rec)
  | [] => some []
  | r :: t => do
    let r2 ← enrichOne e r
    let t2 ← enrich_all e t
    return r2 :: t2

/-- The price fields of a record hold numbers (or are absent, defaulting to
`0`) — the shape every Stage-1 report record has. -/
def pricesNumeric (rec : Rec) : Bool :=
  (pyFloat (dget rec "Recommended Monthly On-Demand Price (USD)" (Val.q 0))).isSome &&
    (pyFloat (dget rec "Current Monthly On-Demand Price (USD)" (Val.q 0))).isSome

/-! ## `handler.py` (Part 2) — trigger guards and timestamp extraction -/

/-- One record of an S3 event notification (bucket name and already
URL-decoded object key — `unquote_plus` is outside the modelled scope). -/
structure S3EventRecord where
  bucket : String
  key : String
deriving DecidableEq, Repr

/-- An S3 event notification (`event["Records"]`). -/
structure S3Event where
  records : List S3EventRecord
deriving DecidableEq, Repr

/-- The `S3ReportReader.parse_s3_event`: `ValueError` on an empty record list or
a missing bucket/key; otherwise the first record's bucket and key. -/
def parse_s3_event (e : S3Event) : Except String (String × String) :=
  match e.records with
  | [] => .error "No Records found in S3 event"
  | r :: _ =>
    if r.bucket = "" ∨ r.key = "" then
      .error ("Missing bucket or key in S3 event: bucket=" ++ r.bucket ++
        ", key=" ++ r.key)
    else .ok (r.bucket, r.key)

/-- Does `cs` start with `pat`? (`str.startswith` over char lists). -/
def listStartsWith : List Char → List Char → Bool
  | [], _ => true
  | _ :: _, [] => false
  | p :: ps, c :: cs => p == c && listStartsWith ps cs

/-- The `str.endswith(suffix)` over char lists. -/
def listEndsWith (suf cs : List Char) : Bool :=
  listStartsWith suf.reverse cs.reverse

/-- Python `s.endswith(suf)` on strings. -/
def strEndsWith (s suf : String) : Bool :=
  listEndsWith suf.data s.data

/-- Python's `pat in s` substring test, over char lists. -/
def listHasInfix (pat : List Char) : List Char → Bool
  | [] => listStartsWith pat []
  | c :: t => listStartsWith pat (c :: t) || listHasInfix pat t

/-- Python's `pat in s` substring test on strings. -/
def strContains (s pat : String) : Bool :=
  listHasInfix pat.data s.data

/-- One element of the fixed timestamp pattern
`\d{4}-\d{2}-\d{2}_\d{2}-\d{2}-\d{2}` (`_extract_timestamp`): a digit class
or a literal.  `\d` is modelled as the ASCII digits; the keys this system
builds are ASCII. -/
inductive PatElem where
  | digit : PatElem
  | lit : Char → PatElem
deriving DecidableEq, Repr

/-- Does a character match one pattern element? -/
def elemMatch : PatElem → Char → Bool
  | .digit, c => c.isDigit
  | .lit a, c => c == a

/-- The fixed `YYYY-MM-DD_HH-MM-SS` pattern of `_extract_timestamp`. -/
def tsPat : List PatElem :=
  [.digit, .digit, .digit, .digit, .lit '-', .digit, .digit, .lit '-',
   .digit, .digit, .lit '_', .digit, .digit, .lit '-', .digit, .digit,
   .lit '-', .digit, .digit]

/-- Match a fixed pattern against a prefix of `cs`, returning the matched
characters. -/
def matchPat : List PatElem → List Char → Option (List Char)
  | [], _ => some []
  | _ :: _, [] => none
  | p :: ps, c :: cs =>
    if elemMatch p c then (matchPat ps cs).map (c :: ·) else none

/-- Does `m` consist exactly of characters matching the pattern? -/
def checkPat : List PatElem → List Char → Bool
  | [], [] => true
  | p :: ps, c :: cs => elemMatch p c && checkPat ps cs
  | _, _ => false

/-- The `re.search` for the fixed-length timestamp pattern: the leftmost
position where it matches. -/
def searchTs : List Char → Option (List Char)
  | [] =>
    match matchPat tsPat [] with
    | some m => some m
    | none => none
  | c :: t =>
    match matchPat tsPat (c :: t) with
    | some m => some m
    | none => searchTs t

/-- The `_extract_timestamp`: the matched group, or the empty string. -/
def extract_timestamp (key : String) : String :=
  match searchTs key.data with
  | some m => String.mk m
  | none => ""

/-- The outcome of the guard section at the top of the Part-2 `handler`. -/
inductive GuardResult where
  | clientError : String → GuardResult
  | skip : String → GuardResult
  | proceed : String → String → String → GuardResult
deriving DecidableEq, Repr

/-- The `statusCode` of a guard outcome (`400` for the malformed-event
response, `200` for the no-op skips; the `proceed` path also returns `200`
when the rest of the pipeline, outside this guard model, succeeds). -/
def guardStatus : GuardResult → ℕ
  | .clientError _ => 400
  | .skip _ => 200
  | .proceed _ _ _ => 200

/-- The guard section of the Part-2 `handler`, in source order: parse the
event (400 on `ValueError`), skip non-`.json` keys, skip keys containing
`/validated/`, then proceed with the extracted correlation timestamp. -/
def handlerGuards (e : S3Event) : GuardResult :=
  match parse_s3_event e with
  | .error m => .clientError m
  | .ok bk =>
    if ¬ (strEndsWith bk.2 ".json") then
      .skip ("Skipped non-JSON file: " ++ bk.2)
    else if strContains bk.2 "/validated/" then
      .skip ("Skipped validated report: " ++ bk.2)
    else
      .proceed bk.1 bk.2 (extract_timestamp bk.2)

/-! ## `bedrock_client.py` — `_parse_json_response`

The regex `r"```(?:json)?\s*\n?(.*?)\n?\s*```"` (with `DOTALL`) matches at
the leftmost opening fence that has a closing fence; `(?:json)?` consumes a
literal `json` tag when present (whitespace contains no backtick, so taking
the tag and the maximal `\s*` run never loses a match); the lazy group then
ends at the earliest point from which only whitespace precedes the closing
fence.  Because the matched group is passed through `.strip()`, the group is
observably the text strictly between the (tagged) opening fence and the
first closing fence, stripped — which is what `takeUntilFence` plus
`pyStrip` compute below. -/

/-- Three consecutive backticks at the head. -/
def fenceAt : List Char → Bool
  | a :: b :: c :: _ => a == '`' && b == '`' && c == '`'
  | _ => false

/-- A literal `json` tag at the head. -/
def jsonTagAt : List Char → Bool
  | a :: b :: c :: d :: _ => a == 'j' && b == 's' && c == 'o' && d == 'n'
  | _ => false

/-- Does a fence (three consecutive backticks) occur anywhere in `cs`? -/
def hasFence : List Char → Bool
  | [] => false
  | c :: t => fenceAt (c :: t) || hasFence t

/-- The characters up to (excluding) the first closing fence; `none` when no
fence follows. -/
def takeUntilFence : List Char → Option (List Char)
  | [] => none
  | c :: rest =>
    if fenceAt (c :: rest) then some []
    else (takeUntilFence rest).map (c :: ·)

/-- Scan for the leftmost opening fence that has a closing fence, returning
the enclosed characters (after an optional `json` tag). -/
def stripFenceAux : List Char → Option (List Char)
  | [] => none
  | c :: rest =>
    if fenceAt (c :: rest) then
      let afterOpen := rest.drop 2
      let afterTag := if jsonTagAt afterOpen then afterOpen.drop 4 else afterOpen
      match takeUntilFence afterTag with
      | some inner => some inner
      | none => stripFenceAux rest
    else stripFenceAux rest

/-- Python's `\s` / `str.strip()` whitespace class (ASCII part). -/
def isPyWs (c : Char) : Bool :=
  c = ' ' ∨ c = '\t' ∨ c = '\n' ∨ c = '\r' ∨ c = '\x0b' ∨ c = '\x0c'

/-- Python `str.strip()` over char lists. -/
def pyStrip (cs : List Char) : List Char :=
  ((cs.dropWhile isPyWs).reverse.dropWhile isPyWs).reverse

/-- The `json_str` computed by `_parse_json_response`: the stripped group of
the first fence match, or the stripped raw text when the regex does not
match. -/
def unwrapResponse (raw : String) : String :=
  match stripFenceAux raw.data with
  | some inner => String.mk (pyStrip inner)
  | none => String.mk (pyStrip raw.data)

/-- The `_parse_json_response`, parameterized by the opaque `json.loads`
collaborator: on a parse failure the raised `ValueError` carries the
original raw text (logged truncated) and the underlying decode error. -/
def parse_json_response {J : Type} (jparse : String → Except String J)
    (raw : String) : Except (String × String) J :=
  match jparse (unwrapResponse raw) with
  | .ok v => .ok v
  | .error err => .error (raw, err)

/-! ## Claim theorems -/

/-- Claim C5: `is_eks_instance` holds iff some tag key, compared
case-insensitively, exactly equals one of the fixed marker keys or starts
with one of the fixed marker prefixes (the empty tag map is not managed);
and `filter_recommendations` partitions any record list into
(kept, excluded) with excluded exactly the records whose tags satisfy the
classifier, the partition sizes summing to the input size, each side
preserving the input's relative order (each equals an order-preserving
`List.filter` of the input), and empty input yielding two empty outputs. -/
theorem eks_classifier_and_filter_partition :
    (∀ tags : Tags, is_eks_instance tags = true ↔
      ∃ kv ∈ tags,
        (∃ m ∈ EKS_TAG_EXACT_KEYS, kv.1.toLower = m.toLower) ∨
          ∃ p ∈ EKS_TAG_PREFIXES, kv.1.toLower.startsWith p.toLower) ∧
    is_eks_instance [] = false ∧
    (∀ recs : List S1Rec,
      (filter_recommendations recs).1
          = recs.filter (fun r => ! is_eks_instance r.tags) ∧
      (filter_recommendations recs).2
          = recs.filter (fun r => is_eks_instance r.tags) ∧
      (filter_recommendations recs).1.length
          + (filter_recommendations recs).2.length = recs.length) ∧
    filter_recommendations [] = ([], []) := by
  refine ⟨?_, ?_, ?_, ?_⟩
  · intro tags
    simp only [is_eks_instance, List.any_eq_true, Bool.or_eq_true,
      List.contains_iff_exists_mem_beq, List.mem_map]
    constructor
    · rintro ⟨kv, hkv, h | h⟩
      · obtain ⟨x, ⟨m, hm, hmx⟩, hbeq⟩ := h
        exact ⟨kv, hkv, Or.inl ⟨m, hm, by
          have h2 : kv.1.toLower = x := by simpa using hbeq
          rw [h2, hmx]⟩⟩
      · obtain ⟨p, hp, hs⟩ := h
        exact ⟨kv, hkv, Or.inr ⟨p, hp, hs⟩⟩
    · rintro ⟨kv, hkv, h | h⟩
      · obtain ⟨m, hm, hval⟩ := h
        exact ⟨kv, hkv, Or.inl ⟨m.toLower, ⟨m, hm, rfl⟩, by simpa using hval⟩⟩
      · obtain ⟨p, hp, hs⟩ := h
        exact ⟨kv, hkv, Or.inr ⟨p, hp, hs⟩⟩
  · rfl
  · intro recs
    induction recs with
    | nil => simp [filter_recommendations]
    | cons r t ih =>
      obtain ⟨ih1, ih2, ih3⟩ := ih
      by_cases h : is_eks_instance r.tags
      · refine ⟨?_, ?_, ?_⟩
        · simp [filter_recommendations, h, ih1]
        · simp [filter_recommendations, h, ih2]
        · simp only [filter_recommendations, h, if_pos, List.length_cons]
          omega
      · refine ⟨?_, ?_, ?_⟩
        · simp [filter_recommendations, h, ih1]
        · simp [filter_recommendations, h, ih2]
        · have hb : is_eks_instance r.tags = false := by
            simpa using h
          simp only [filter_recommendations, hb, Bool.false_eq_true,
            if_false, List.length_cons]
          omega
  · rfl

theorem dget_setFields_eq (r : Rec) (kvs : List (String × Val)) (k : String)
    (v d : Val) (h : lastVal kvs k = some v) :
    dget (setFields r kvs) k d = v := by
  simp [dget, dlookup_setFields, h, optOr]

theorem lastVal_eq_none (kvs : List (String × Val)) (k : String)
    (h : ∀ p ∈ kvs, (p.1 == k) = false) : lastVal kvs k = none := by
  induction kvs with
  | nil => rfl
  | cons p t ih =>
    have h1 := h p (List.mem_cons_self p t)
    have h2 := ih (fun q hq => h q (List.mem_cons_of_mem p hq))
    simp [lastVal, h1, h2]

theorem dlookup_setFields_not_mentioned (r : Rec) (kvs : List (String × Val))
    (k : String) (h : ∀ p ∈ kvs, (p.1 == k) = false) :
    dlookup (setFields r kvs) k = dlookup r k := by
  rw [dlookup_setFields, lastVal_eq_none kvs k h]
  rfl

/-- Claim C1: For a record whose `Recommended Instance Type` is allow-listed at
tier discount `D`, Stage-2 enrichment yields status
"Approved (Allowed Instance)",
`discounted_monthly_price = round(recommended_monthly * (1 - D/100), 2)`,
`estimated_monthly_savings_with_discount
  = round(current_monthly - discounted_monthly_price, 2)`, and never invokes
the AI Advisor for that record (the enriched output is independent of the
Bedrock collaborator).  The price hypotheses say the two price fields are
numbers (or absent, defaulting to `0`) — the shape of every Stage-1 report
record. -/
theorem stage2_approved_branch (allow : AllowList) (modelId : String)
    (bed bed2 : Rec → BedrockOutcome) (rec : Rec) (t : String) (tier : Tier)
    (rm cm : ℚ)
    (ht : dget rec "Recommended Instance Type" (Val.s "") = Val.s t)
    (htier : lookupTier allow t = some tier)
    (hrm : pyFloat (dget rec "Recommended Monthly On-Demand Price (USD)" (Val.q 0))
      = some rm)
    (hcm : pyFloat (dget rec "Current Monthly On-Demand Price (USD)" (Val.q 0))
      = some cm) :
    ∃ out, enrichOne ⟨allow, modelId, bed⟩ rec = some out ∧
      dget out "validation_status" (Val.s "") = Val.s "Approved (Allowed Instance)" ∧
      dget out "discounted_monthly_price" (Val.s "")
        = Val.q (pyRound 2 (rm * (1 - tier.discount_percent / 100))) ∧
      dget out "estimated_monthly_savings_with_discount" (Val.s "")
        = Val.q (pyRound 2
            (cm - pyRound 2 (rm * (1 - tier.discount_percent / 100)))) ∧
      enrichOne ⟨allow, modelId, bed⟩ rec = enrichOne ⟨allow, modelId, bed2⟩ rec := by
  have htier2 : tierOf allow (dget rec "Recommended Instance Type" (Val.s ""))
      = some tier := by
    rw [ht]
    simpa [tierOf] using htier
  have hAllowed : isAllowedVal allow
      (dget rec "Recommended Instance Type" (Val.s "")) = true := by
    simp [isAllowedVal, htier2]
  have happ : approve_allowed allow rec = some (setFields rec
      [("validation_status", Val.s "Approved (Allowed Instance)"),
       ("final_recommendation", dget rec "Recommended Instance Type" (Val.s "")),
       ("discount_tier_name", Val.s tier.tier_name),
       ("discount_percent", Val.q tier.discount_percent),
       ("discounted_monthly_price",
         Val.q (pyRound 2 (rm * (1 - tier.discount_percent / 100)))),
       ("estimated_monthly_savings_with_discount",
         Val.q (pyRound 2
           (cm - pyRound 2 (rm * (1 - tier.discount_percent / 100))))),
       ("ai_alternatives", Val.s ""),
       ("ai_analysis_summary",
         Val.s "Instance type is pre-approved in the organization's allow-list."),
       ("ai_confidence", Val.s "high"),
       ("bedrock_model", Val.s "")]) := by
    rw [approve_allowed, htier2, hrm, hcm]
    rfl
  have hone : enrichOne ⟨allow, modelId, bed⟩ rec = approve_allowed allow rec := by
    simp [enrichOne, hAllowed]
  have hone2 : enrichOne ⟨allow, modelId, bed2⟩ rec = approve_allowed allow rec := by
    simp [enrichOne, hAllowed]
  refine ⟨_, hone.trans happ, ?_, ?_, ?_, hone.trans hone2.symm⟩
  · exact dget_setFields_eq _ _ _ _ _ (by simp [lastVal])
  · exact dget_setFields_eq _ _ _ _ _ (by simp [lastVal])
  · exact dget_setFields_eq _ _ _ _ _ (by simp [lastVal])

/-- Witness for C1 at the spec's scenario: `m5.xlarge` allowed at 50%,
recommended monthly 140.16, current monthly 280.32 → discounted 70.08 and
savings-with-discount 210.24. -/
theorem stage2_approved_branch_witness :
    ∃ out, enrichOne
        ⟨[("m5.xlarge", ⟨"Tier 1", 50, "m5", "General Purpose"⟩)],
          "anthropic.claude-3-5-sonnet-20241022-v2:0", fun _ => BedrockOutcome.err⟩
        [("Recommended Instance Type", Val.s "m5.xlarge"),
         ("Recommended Monthly On-Demand Price (USD)", Val.q (14016 / 100)),
         ("Current Monthly On-Demand Price (USD)", Val.q (28032 / 100))]
        = some out ∧
      dget out "validation_status" (Val.s "") = Val.s "Approved (Allowed Instance)" ∧
      dget out "discounted_monthly_price" (Val.s "")
        = Val.q (pyRound 2 (14016 / 100 * (1 - (50 : ℚ) / 100))) ∧
      dget out "estimated_monthly_savings_with_discount" (Val.s "")
        = Val.q (pyRound 2
            (28032 / 100 - pyRound 2 (14016 / 100 * (1 - (50 : ℚ) / 100)))) ∧
      enrichOne
        ⟨[("m5.xlarge", ⟨"Tier 1", 50, "m5", "General Purpose"⟩)],
          "anthropic.claude-3-5-sonnet-20241022-v2:0", fun _ => BedrockOutcome.err⟩
        [("Recommended Instance Type", Val.s "m5.xlarge"),
         ("Recommended Monthly On-Demand Price (USD)", Val.q (14016 / 100)),
         ("Current Monthly On-Demand Price (USD)", Val.q (28032 / 100))]
        = enrichOne
        ⟨[("m5.xlarge", ⟨"Tier 1", 50, "m5", "General Purpose"⟩)],
          "anthropic.claude-3-5-sonnet-20241022-v2:0",
          fun _ => BedrockOutcome.ok ⟨[], "", ""⟩⟩
        [("Recommended Instance Type", Val.s "m5.xlarge"),
         ("Recommended Monthly On-Demand Price (USD)", Val.q (14016 / 100)),
         ("Current Monthly On-Demand Price (USD)", Val.q (28032 / 100))] :=
  stage2_approved_branch _ _ _ _ _ "m5.xlarge"
    ⟨"Tier 1", 50, "m5", "General Purpose"⟩ (14016 / 100) (28032 / 100)
    rfl rfl rfl rfl

theorem validate_with_bedrock_err (e : Enricher) (rec : Rec)
    (h : e.bed rec = .err) :
    validate_with_bedrock e rec = failedRec e.modelId rec := by
  simp only [validate_with_bedrock, h]

theorem validate_with_bedrock_no_alts (e : Enricher) (rec : Rec)
    (res : BedrockResult) (h : e.bed rec = .ok res)
    (halts : res.alternatives = []) :
    validate_with_bedrock e rec = failedRec e.modelId rec := by
  simp only [validate_with_bedrock, h, halts]

theorem validate_with_bedrock_fail (e : Enricher) (rec : Rec)
    (h : e.bed rec = .err ∨ ∃ res, e.bed rec = .ok res ∧ res.alternatives = []) :
    validate_with_bedrock e rec = failedRec e.modelId rec := by
  rcases h with h | ⟨res, hok, halts⟩
  · exact validate_with_bedrock_err e rec h
  · exact validate_with_bedrock_no_alts e rec res hok halts

theorem approve_allowed_eq (allow : AllowList) (rec : Rec) (rm cm : ℚ)
    (hrm : pyFloat (dget rec "Recommended Monthly On-Demand Price (USD)" (Val.q 0))
      = some rm)
    (hcm : pyFloat (dget rec "Current Monthly On-Demand Price (USD)" (Val.q 0))
      = some cm) :
    approve_allowed allow rec = some (setFields rec
      [("validation_status", Val.s "Approved (Allowed Instance)"),
       ("final_recommendation", dget rec "Recommended Instance Type" (Val.s "")),
       ("discount_tier_name", Val.s
         (match tierOf allow (dget rec "Recommended Instance Type" (Val.s "")) with
          | some t => t.tier_name | none => "")),
       ("discount_percent", Val.q
         (match tierOf allow (dget rec "Recommended Instance Type" (Val.s "")) with
          | some t => t.discount_percent | none => 0)),
       ("discounted_monthly_price", Val.q (pyRound 2 (rm * (1 -
         (match tierOf allow (dget rec "Recommended Instance Type" (Val.s "")) with
          | some t => t.discount_percent | none => 0) / 100)))),
       ("estimated_monthly_savings_with_discount",
         Val.q (pyRound 2 (cm - pyRound 2 (rm * (1 -
           (match tierOf allow (dget rec "Recommended Instance Type" (Val.s "")) with
            | some t => t.discount_percent | none => 0) / 100))))),
       ("ai_alternatives", Val.s ""),
       ("ai_analysis_summary",
         Val.s "Instance type is pre-approved in the organization's allow-list."),
       ("ai_confidence", Val.s "high"),
       ("bedrock_model", Val.s "")]) := by
  rw [approve_allowed, hrm, hcm]
  rfl

theorem approve_allowed_none (allow : AllowList) (rec : Rec)
    (h : pyFloat (dget rec "Recommended Monthly On-Demand Price (USD)" (Val.q 0))
        = none ∨
      pyFloat (dget rec "Current Monthly On-Demand Price (USD)" (Val.q 0)) = none) :
    approve_allowed allow rec = none := by
  rcases h with h | h
  · rw [approve_allowed, h]
    rfl
  · cases hrm : pyFloat (dget rec "Recommended Monthly On-Demand Price (USD)"
        (Val.q 0)) with
    | none => rw [approve_allowed, hrm]; rfl
    | some rm => rw [approve_allowed, hrm, h]; rfl

theorem validate_with_bedrock_ok_eq (e : Enricher) (rec : Rec)
    (res : BedrockResult) (best : Alt) (rest : List Alt) (rm cm : ℚ)
    (hbed : e.bed rec = .ok res) (halts : res.alternatives = best :: rest)
    (hrm : pyFloat (dget rec "Recommended Monthly On-Demand Price (USD)" (Val.q 0))
      = some rm)
    (hcm : pyFloat (dget rec "Current Monthly On-Demand Price (USD)" (Val.q 0))
      = some cm) :
    validate_with_bedrock e rec = setFields rec
      [("validation_status", Val.s "AI-Recommended Alternative"),
       ("final_recommendation", Val.s best.instance_type),
       ("discount_tier_name", Val.s
         (match lookupTier e.allow best.instance_type with
          | some t => t.tier_name | none => "")),
       ("discount_percent", Val.q
         (match lookupTier e.allow best.instance_type with
          | some t => t.discount_percent | none => 0)),
       ("discounted_monthly_price", Val.q (pyRound 2 (rm * (1 -
         (match lookupTier e.allow best.instance_type with
          | some t => t.discount_percent | none => 0) / 100)))),
       ("estimated_monthly_savings_with_discount",
         Val.q (pyRound 2 (cm - pyRound 2 (rm * (1 -
           (match lookupTier e.allow best.instance_type with
            | some t => t.discount_percent | none => 0) / 100))))),
       ("ai_alternatives", Val.s (String.intercalate "; "
         (((best :: rest).take 3).map renderAlt))),
       ("ai_analysis_summary", Val.s res.analysis_summary),
       ("ai_confidence", Val.s res.confidence),
       ("bedrock_model", Val.s e.modelId)] := by
  simp only [validate_with_bedrock, hbed, halts, hrm, hcm]

theorem validate_with_bedrock_float_fail (e : Enricher) (rec : Rec)
    (res : BedrockResult) (best : Alt) (rest : List Alt)
    (hbed : e.bed rec = .ok res) (halts : res.alternatives = best :: rest)
    (h : pyFloat (dget rec "Recommended Monthly On-Demand Price (USD)" (Val.q 0))
        = none ∨
      pyFloat (dget rec "Current Monthly On-Demand Price (USD)" (Val.q 0)) = none) :
    validate_with_bedrock e rec = failedRec e.modelId rec := by
  rcases h with h | h
  · simp only [validate_with_bedrock, hbed, halts, h]
  · cases hrm : pyFloat (dget rec "Recommended Monthly On-Demand Price (USD)"
        (Val.q 0)) with
    | none => simp only [validate_with_bedrock, hbed, halts, hrm]
    | some rm => simp only [validate_with_bedrock, hbed, halts, hrm, h]

theorem enrichOne_isSome (e : Enricher) (r : Rec)
    (h : pricesNumeric r = true) : (enrichOne e r).isSome := by
  obtain ⟨h1, h2⟩ := Bool.and_eq_true (a := _) (b := _) |>.mp h
  obtain ⟨rm, hrm⟩ := Option.isSome_iff_exists.mp h1
  obtain ⟨cm, hcm⟩ := Option.isSome_iff_exists.mp h2
  rw [enrichOne]
  by_cases ha : isAllowedVal e.allow
      (dget r "Recommended Instance Type" (Val.s "")) = true
  · rw [if_pos ha, approve_allowed, hrm, hcm]
    rfl
  · rw [if_neg ha]
    rfl

theorem enrich_all_some_length (e : Enricher) (recs : List Rec)
    (h : ∀ r ∈ recs, pricesNumeric r = true) :
    ∃ outs, enrich_all e recs = some outs ∧ outs.length = recs.length := by
  induction recs with
  | nil => exact ⟨[], rfl, rfl⟩
  | cons r t ih =>
    obtain ⟨outs, houts, hlen⟩ := ih (fun q hq => h q (List.mem_cons_of_mem r hq))
    obtain ⟨out, hout⟩ := Option.isSome_iff_exists.mp
      (enrichOne_isSome e r (h r (List.mem_cons_self r t)))
    refine ⟨out :: outs, ?_, by simp [hlen]⟩
    rw [enrich_all, hout, houts]
    rfl

/-- Claim C2: For a record whose recommended type is not allow-listed, when the
AI Advisor call fails (transport error, empty response and parse failure are
the `err` outcome; zero returned alternatives is the `ok` outcome with an
empty list — the enricher's `except Exception` treats all of them
uniformly), the enriched record has status "AI Validation Failed",
`final_recommendation` equal to the original recommended type, and the three
discount fields zero; and enrichment continues: for any batch of
numeric-priced records, `enrich_all` returns one enriched record per input
record. -/
theorem stage2_failure_branch (allow : AllowList) (modelId : String)
    (bed : Rec → BedrockOutcome) (rec : Rec)
    (hna : isAllowedVal allow
      (dget rec "Recommended Instance Type" (Val.s "")) = false)
    (hfail : bed rec = .err ∨ ∃ res, bed rec = .ok res ∧ res.alternatives = [])
    (recs : List Rec) (hnum : ∀ r ∈ recs, pricesNumeric r = true) :
    (∃ out, enrichOne ⟨allow, modelId, bed⟩ rec = some out ∧
      dget out "validation_status" (Val.s "") = Val.s "AI Validation Failed" ∧
      dget out "final_recommendation" (Val.s "")
          = dget rec "Recommended Instance Type" (Val.s "") ∧
      dget out "discount_percent" (Val.s "") = Val.q 0 ∧
      dget out "discounted_monthly_price" (Val.s "") = Val.q 0 ∧
      dget out "estimated_monthly_savings_with_discount" (Val.s "") = Val.q 0) ∧
    (∃ outs, enrich_all ⟨allow, modelId, bed⟩ recs = some outs ∧
      outs.length = recs.length) := by
  constructor
  · have hone : enrichOne ⟨allow, modelId, bed⟩ rec
        = some (failedRec modelId rec) := by
      rw [enrichOne, if_neg (by simp [hna]),
        validate_with_bedrock_fail ⟨allow, modelId, bed⟩ rec hfail]
    refine ⟨failedRec modelId rec, hone, ?_, ?_, ?_, ?_, ?_⟩ <;>
      exact dget_setFields_eq _ _ _ _ _ (by simp [lastVal])
  · exact enrich_all_some_length _ recs hnum

/-- Witness for C2: a record recommending `x9.huge` with an empty allow-list
and a failing advisor; a one-record batch still yields one output record. -/
theorem stage2_failure_branch_witness :
    (∃ out, enrichOne ⟨[], "anthropic.claude-3-5-sonnet-20241022-v2:0",
        fun _ => BedrockOutcome.err⟩
        [("Instance ID", Val.s "i-0abc"),
         ("Recommended Instance Type", Val.s "x9.huge")] = some out ∧
      dget out "validation_status" (Val.s "") = Val.s "AI Validation Failed" ∧
      dget out "final_recommendation" (Val.s "")
          = dget [("Instance ID", Val.s "i-0abc"),
              ("Recommended Instance Type", Val.s "x9.huge")]
              "Recommended Instance Type" (Val.s "") ∧
      dget out "discount_percent" (Val.s "") = Val.q 0 ∧
      dget out "discounted_monthly_price" (Val.s "") = Val.q 0 ∧
      dget out "estimated_monthly_savings_with_discount" (Val.s "") = Val.q 0) ∧
    (∃ outs, enrich_all ⟨[], "anthropic.claude-3-5-sonnet-20241022-v2:0",
        fun _ => BedrockOutcome.err⟩
        [[("Instance ID", Val.s "i-0abc"),
          ("Recommended Instance Type", Val.s "x9.huge")]] = some outs ∧
      outs.length = [[("Instance ID", Val.s "i-0abc"),
          ("Recommended Instance Type", Val.s "x9.huge")]].length) :=
  stage2_failure_branch [] "anthropic.claude-3-5-sonnet-20241022-v2:0"
    (fun _ => BedrockOutcome.err)
    [("Instance ID", Val.s "i-0abc"),
     ("Recommended Instance Type", Val.s "x9.huge")]
    rfl (Or.inl rfl) _ (by intro r hr; simp at hr; subst hr; rfl)

/-- Claim C3 counterexample: A record that ends in the "AI Validation Failed"
state has a blank `ai_confidence`, but its `bedrock_model` field is the
client's resolved model id (`MODEL_ALIASES["claude"]` here), not blank: the
`except` branch of `_validate_with_bedrock` assigns
`enriched["bedrock_model"] = self._bedrock.model_id`. -/
theorem failed_record_model_field_not_blank :
    dget ((enrichOne ⟨[], resolveModelId "claude", fun _ => BedrockOutcome.err⟩
        [("Instance ID", Val.s "i-0abc")]).getD [])
      "validation_status" (Val.s "") = Val.s "AI Validation Failed" ∧
    dget ((enrichOne ⟨[], resolveModelId "claude", fun _ => BedrockOutcome.err⟩
        [("Instance ID", Val.s "i-0abc")]).getD [])
      "ai_confidence" (Val.s "missing") = Val.s "" ∧
    dget ((enrichOne ⟨[], resolveModelId "claude", fun _ => BedrockOutcome.err⟩
        [("Instance ID", Val.s "i-0abc")]).getD [])
      "bedrock_model" (Val.s "")
      = Val.s "anthropic.claude-3-5-sonnet-20241022-v2:0" ∧
    Val.s "anthropic.claude-3-5-sonnet-20241022-v2:0" ≠ Val.s "" := by
  refine ⟨rfl, rfl, rfl, ?_⟩
  intro h
  simp at h

/-- Claim C3 amended: For every record that ends in the "AI Validation Failed"
state, `ai_confidence` is blank, and `bedrock_model` records the Bedrock
client's resolved model id (so it is blank only when that id is blank). -/
theorem failed_record_confidence_blank_model_recorded (allow : AllowList)
    (modelId : String) (bed : Rec → BedrockOutcome) (rec out : Rec)
    (hout : enrichOne ⟨allow, modelId, bed⟩ rec = some out)
    (hst : dget out "validation_status" (Val.s "")
      = Val.s "AI Validation Failed") :
    dget out "ai_confidence" (Val.s "missing") = Val.s "" ∧
    dget out "bedrock_model" (Val.s "") = Val.s modelId := by
  have hfailed : out = failedRec modelId rec := by
    rw [enrichOne] at hout
    by_cases ha : isAllowedVal allow
        (dget rec "Recommended Instance Type" (Val.s "")) = true
    · exfalso
      rw [if_pos (by simpa using ha)] at hout
      cases hrm : pyFloat (dget rec "Recommended Monthly On-Demand Price (USD)"
          (Val.q 0)) with
      | none =>
        rw [approve_allowed_none allow rec (Or.inl hrm)] at hout
        exact Option.noConfusion hout
      | some rm =>
        cases hcm : pyFloat (dget rec "Current Monthly On-Demand Price (USD)"
            (Val.q 0)) with
        | none =>
          rw [approve_allowed_none allow rec (Or.inr hcm)] at hout
          exact Option.noConfusion hout
        | some cm =>
          rw [approve_allowed_eq allow rec rm cm hrm hcm] at hout
          have hsf := Option.some.inj hout
          rw [← hsf] at hst
          rw [dget_setFields_eq _ _ _ (Val.s "Approved (Allowed Instance)") _
            (by simp [lastVal])] at hst
          simp at hst
    · rw [if_neg (by simpa using ha)] at hout
      have hv := Option.some.inj hout
      cases hbed : bed rec with
      | err =>
        rw [validate_with_bedrock_err _ _ hbed] at hv
        exact hv.symm
      | ok res =>
        cases halts : res.alternatives with
        | nil =>
          rw [validate_with_bedrock_no_alts _ _ _ hbed halts] at hv
          exact hv.symm
        | cons best rest =>
          cases hrm : pyFloat (dget rec "Recommended Monthly On-Demand Price (USD)"
              (Val.q 0)) with
          | none =>
            rw [validate_with_bedrock_float_fail _ _ _ _ _ hbed halts
              (Or.inl hrm)] at hv
            exact hv.symm
          | some rm =>
            cases hcm : pyFloat (dget rec "Current Monthly On-Demand Price (USD)"
                (Val.q 0)) with
            | none =>
              rw [validate_with_bedrock_float_fail _ _ _ _ _ hbed halts
                (Or.inr hcm)] at hv
              exact hv.symm
            | some cm =>
              exfalso
              rw [validate_with_bedrock_ok_eq _ _ _ _ _ rm cm hbed halts
                hrm hcm] at hv
              rw [← hv] at hst
              rw [dget_setFields_eq _ _ _ (Val.s "AI-Recommended Alternative") _
                (by simp [lastVal])] at hst
              simp at hst
  subst hfailed
  exact ⟨dget_setFields_eq _ _ _ _ _ (by simp [lastVal]),
    dget_setFields_eq _ _ _ _ _ (by simp [lastVal])⟩

/-- Witness for the amended C3: a concrete failed record has blank
confidence and the enricher's model id in `bedrock_model`. -/
theorem failed_record_confidence_blank_model_recorded_witness :
    dget ((enrichOne ⟨[], "amazon.nova-pro-v1:0", fun _ => BedrockOutcome.err⟩
        [("Instance ID", Val.s "i-9")]).getD [])
      "ai_confidence" (Val.s "missing") = Val.s "" ∧
    dget ((enrichOne ⟨[], "amazon.nova-pro-v1:0", fun _ => BedrockOutcome.err⟩
        [("Instance ID", Val.s "i-9")]).getD [])
      "bedrock_model" (Val.s "") = Val.s "amazon.nova-pro-v1:0" :=
  failed_record_confidence_blank_model_recorded [] "amazon.nova-pro-v1:0"
    (fun _ => BedrockOutcome.err) [("Instance ID", Val.s "i-9")] _ rfl rfl

/-- Claim C4: For a record whose recommended type is not allow-listed and for
which the AI Advisor returns at least one alternative, the enriched record
has status "AI-Recommended Alternative", `final_recommendation` equal to the
instance type of the first-listed alternative, and `ai_alternatives` the
semicolon-joined "#rank: type — reason" rendering of at most the first three
alternatives.  The price hypotheses say the two price fields are numbers (or
absent): a `float()` failure inside the `try` block would land the record in
the `except` branch instead. -/
theorem stage2_ai_branch (allow : AllowList) (modelId : String)
    (bed : Rec → BedrockOutcome) (rec : Rec) (res : BedrockResult)
    (best : Alt) (rest : List Alt) (rm cm : ℚ)
    (hna : isAllowedVal allow
      (dget rec "Recommended Instance Type" (Val.s "")) = false)
    (hok : bed rec = .ok res) (halts : res.alternatives = best :: rest)
    (hrm : pyFloat (dget rec "Recommended Monthly On-Demand Price (USD)" (Val.q 0))
      = some rm)
    (hcm : pyFloat (dget rec "Current Monthly On-Demand Price (USD)" (Val.q 0))
      = some cm) :
    ∃ out, enrichOne ⟨allow, modelId, bed⟩ rec = some out ∧
      dget out "validation_status" (Val.s "")
          = Val.s "AI-Recommended Alternative" ∧
      dget out "final_recommendation" (Val.s "") = Val.s best.instance_type ∧
      dget out "ai_alternatives" (Val.s "")
          = Val.s (String.intercalate "; "
              (((best :: rest).take 3).map renderAlt)) := by
  have hone : enrichOne ⟨allow, modelId, bed⟩ rec
      = some (validate_with_bedrock ⟨allow, modelId, bed⟩ rec) := by
    rw [enrichOne, if_neg (by simp [hna])]
  rw [validate_with_bedrock_ok_eq ⟨allow, modelId, bed⟩ rec res best rest rm cm
    hok halts hrm hcm] at hone
  refine ⟨_, hone, ?_, ?_, ?_⟩ <;>
    exact dget_setFields_eq _ _ _ _ _ (by simp [lastVal])

/-- Witness for C4 at the spec's scenario: `m5a.xlarge` not allow-listed,
the advisor returns `m5.xlarge` (rank 1) and `m6i.xlarge` (rank 2); the
final recommendation is `m5.xlarge` and `ai_alternatives` renders both. -/
theorem stage2_ai_branch_witness :
    ∃ out, enrichOne
        ⟨[("m5.xlarge", ⟨"Tier 1", 50, "m5", "General Purpose"⟩)],
          "anthropic.claude-3-5-sonnet-20241022-v2:0",
          fun _ => BedrockOutcome.ok
            ⟨[⟨"m5.xlarge", "Best match", 1⟩, ⟨"m6i.xlarge", "Newer gen", 2⟩],
              "Good match", "high"⟩⟩
        [("Recommended Instance Type", Val.s "m5a.xlarge"),
         ("Recommended Monthly On-Demand Price (USD)", Val.q (14016 / 100)),
         ("Current Monthly On-Demand Price (USD)", Val.q (28032 / 100))]
        = some out ∧
      dget out "validation_status" (Val.s "")
          = Val.s "AI-Recommended Alternative" ∧
      dget out "final_recommendation" (Val.s "") = Val.s "m5.xlarge" ∧
      dget out "ai_alternatives" (Val.s "")
          = Val.s "#1: m5.xlarge — Best match; #2: m6i.xlarge — Newer gen" := by
  obtain ⟨out, h1, h2, h3, h4⟩ := stage2_ai_branch
    [("m5.xlarge", ⟨"Tier 1", 50, "m5", "General Purpose"⟩)]
    "anthropic.claude-3-5-sonnet-20241022-v2:0"
    (fun _ => BedrockOutcome.ok
      ⟨[⟨"m5.xlarge", "Best match", 1⟩, ⟨"m6i.xlarge", "Newer gen", 2⟩],
        "Good match", "high"⟩)
    [("Recommended Instance Type", Val.s "m5a.xlarge"),
     ("Recommended Monthly On-Demand Price (USD)", Val.q (14016 / 100)),
     ("Current Monthly On-Demand Price (USD)", Val.q (28032 / 100))]
    ⟨[⟨"m5.xlarge", "Best match", 1⟩, ⟨"m6i.xlarge", "Newer gen", 2⟩],
      "Good match", "high"⟩
    ⟨"m5.xlarge", "Best match", 1⟩ [⟨"m6i.xlarge", "Newer gen", 2⟩]
    (14016 / 100) (28032 / 100) rfl rfl rfl rfl rfl
  exact ⟨out, h1, h2, h3, by rw [h4]; rfl⟩

theorem dlookup_setFields_keys_sub (r : Rec) (kvs : List (String × Val))
    (k : String) (hsub : ∀ p ∈ kvs, p.1 ∈ enrichmentKeys)
    (hk : k ∉ enrichmentKeys) :
    dlookup (setFields r kvs) k = dlookup r k := by
  apply dlookup_setFields_not_mentioned
  intro p hp
  apply beq_eq_false_iff_ne.mpr
  intro h
  exact hk (h ▸ hsub p hp)

/-- Every record produced by `enrichOne` is its input with a block of
assignments whose keys all lie in the ten enrichment keys. -/
theorem enrichOne_shape (e : Enricher) (r out : Rec)
    (hout : enrichOne e r = some out) :
    ∃ kvs, out = setFields r kvs ∧ ∀ p ∈ kvs, p.1 ∈ enrichmentKeys := by
  rw [enrichOne] at hout
  by_cases ha : isAllowedVal e.allow
      (dget r "Recommended Instance Type" (Val.s "")) = true
  · rw [if_pos ha] at hout
    cases hrm : pyFloat (dget r "Recommended Monthly On-Demand Price (USD)"
        (Val.q 0)) with
    | none =>
      rw [approve_allowed_none e.allow r (Or.inl hrm)] at hout
      exact Option.noConfusion hout
    | some rm =>
      cases hcm : pyFloat (dget r "Current Monthly On-Demand Price (USD)"
          (Val.q 0)) with
      | none =>
        rw [approve_allowed_none e.allow r (Or.inr hcm)] at hout
        exact Option.noConfusion hout
      | some cm =>
        rw [approve_allowed_eq e.allow r rm cm hrm hcm] at hout
        refine ⟨_, (Option.some.inj hout).symm, ?_⟩
        intro p hp
        simp only [List.mem_cons, List.not_mem_nil, or_false] at hp
        rcases hp with rfl | rfl | rfl | rfl | rfl | rfl | rfl | rfl | rfl | rfl <;>
          simp [enrichmentKeys]
  · rw [if_neg ha] at hout
    have hv := Option.some.inj hout
    have hfailed : ∀ m, (failedRec m r = out) →
        ∃ kvs, out = setFields r kvs ∧ ∀ p ∈ kvs, p.1 ∈ enrichmentKeys := by
      intro m hm
      refine ⟨_, hm.symm, ?_⟩
      intro p hp
      simp only [List.mem_cons, List.not_mem_nil, or_false] at hp
      rcases hp with rfl | rfl | rfl | rfl | rfl | rfl | rfl | rfl | rfl | rfl <;>
        simp [enrichmentKeys]
    cases hbed : e.bed r with
    | err =>
      rw [validate_with_bedrock_err _ _ hbed] at hv
      exact hfailed _ hv
    | ok res =>
      cases halts : res.alternatives with
      | nil =>
        rw [validate_with_bedrock_no_alts _ _ _ hbed halts] at hv
        exact hfailed _ hv
      | cons best rest =>
        cases hrm : pyFloat (dget r "Recommended Monthly On-Demand Price (USD)"
            (Val.q 0)) with
        | none =>
          rw [validate_with_bedrock_float_fail _ _ _ _ _ hbed halts
            (Or.inl hrm)] at hv
          exact hfailed _ hv
        | some rm =>
          cases hcm : pyFloat (dget r "Current Monthly On-Demand Price (USD)"
              (Val.q 0)) with
          | none =>
            rw [validate_with_bedrock_float_fail _ _ _ _ _ hbed halts
              (Or.inr hcm)] at hv
            exact hfailed _ hv
          | some cm =>
            rw [validate_with_bedrock_ok_eq _ _ _ _ _ rm cm hbed halts
              hrm hcm] at hv
            refine ⟨_, hv.symm, ?_⟩
            intro p hp
            simp only [List.mem_cons, List.not_mem_nil, or_false] at hp
            rcases hp with rfl | rfl | rfl | rfl | rfl | rfl | rfl | rfl | rfl | rfl <;>
              simp [enrichmentKeys]

/-- Claim C10 counterexample: Stage-2 enrichment does not preserve every
key-value pair of its input: a record that already carries a
`validation_status` key has it overwritten (the ten enrichment keys are
assigned in every branch, replacing any same-keyed input pair). -/
theorem enrich_overwrites_existing_validation_key :
    dget (((enrich_all ⟨[], "m", fun _ => BedrockOutcome.err⟩
        [[("validation_status", Val.s "untouched")]]).getD []).headD [])
      "validation_status" (Val.s "") = Val.s "AI Validation Failed" ∧
    Val.s "AI Validation Failed" ≠ Val.s "untouched" := by
  refine ⟨rfl, ?_⟩
  intro h
  simp at h

/-- Claim C10 amended: For every input list of records with numeric-or-absent
price fields, `enrich_all` returns a list of the same length in the same
order, and the `i`-th output record agrees with the `i`-th input record on
every key outside the ten added validation/AI keys (pairs under those ten
keys are replaced).  The embedding is functional: `enrich_all` builds each
output as a fresh copy (`{**rec}`) and never alters its input list. -/
theorem enrich_all_frame (allow : AllowList) (modelId : String)
    (bed : Rec → BedrockOutcome) (recs : List Rec)
    (hnum : ∀ r ∈ recs, pricesNumeric r = true) :
    ∃ outs, enrich_all ⟨allow, modelId, bed⟩ recs = some outs ∧
      outs.length = recs.length ∧
      ∀ (i : ℕ) (rec out : Rec), recs[i]? = some rec → outs[i]? = some out →
        ∀ k, k ∉ enrichmentKeys → dlookup out k = dlookup rec k := by
  induction recs with
  | nil =>
    refine ⟨[], rfl, rfl, ?_⟩
    intro i rec out h
    simp at h
  | cons r t ih =>
    obtain ⟨outs, houts, hlen, hprop⟩ :=
      ih (fun q hq => hnum q (List.mem_cons_of_mem r hq))
    obtain ⟨out, hout⟩ := Option.isSome_iff_exists.mp
      (enrichOne_isSome ⟨allow, modelId, bed⟩ r
        (hnum r (List.mem_cons_self r t)))
    refine ⟨out :: outs, ?_, by simp [hlen], ?_⟩
    · rw [enrich_all, hout, houts]
      rfl
    · intro i rec orec hrec horec k hk
      cases i with
      | zero =>
        simp only [List.getElem?_cons_zero, Option.some.injEq] at hrec horec
        subst hrec
        subst horec
        obtain ⟨kvs, hkvs, hsub⟩ := enrichOne_shape _ _ _ hout
        rw [hkvs]
        exact dlookup_setFields_keys_sub _ _ _ hsub hk
      | succ n =>
        simp only [List.getElem?_cons_succ] at hrec horec
        exact hprop n rec orec hrec horec k hk

/-- Witness for the amended C10: a one-record batch keeps its `Instance ID`
pair and yields one output record. -/
theorem enrich_all_frame_witness :
    ∃ outs, enrich_all ⟨[], "m", fun _ => BedrockOutcome.err⟩
        [[("Instance ID", Val.s "i-1")]] = some outs ∧
      outs.length = 1 ∧
      dlookup (outs.headD []) "Instance ID" = some (Val.s "i-1") := by
  obtain ⟨outs, h1, h2, h3⟩ := enrich_all_frame [] "m"
    (fun _ => BedrockOutcome.err) [[("Instance ID", Val.s "i-1")]]
    (by intro q hq; simp at hq; subst hq; rfl)
  cases outs with
  | nil => simp at h2
  | cons o rest =>
    cases rest with
    | cons o2 rest2 => simp at h2
    | nil =>
      refine ⟨[o], h1, rfl, ?_⟩
      have := h3 0 [("Instance ID", Val.s "i-1")] o rfl rfl "Instance ID"
        (by simp [enrichmentKeys])
      simpa using this

theorem lookupRat_cons (a : String × ℚ) (t : List (String × ℚ)) (k : String) :
    lookupRat (a :: t) k = if a.1 == k then some a.2 else lookupRat t k := by
  by_cases h : a.1 == k
  · simp [lookupRat, List.find?, h]
  · simp only [lookupRat, List.find?]
    rw [if_neg (by simpa using h)]
    simp [h]

theorem god_fst (c : CostCalc) (t : String) :
    (get_on_demand_price c t).1 = priceOf c t := by
  rw [get_on_demand_price, priceOf]
  cases hl : lookupRat c.cache t with
  | some p => rfl
  | none =>
    by_cases ht : t = ""
    · simp [ht]
    · simp only [if_neg ht]
      cases hf : c.fetch t <;> simp [hf]

theorem god_stable (c : CostCalc) (t u : String) :
    priceOf (get_on_demand_price c t).2.1 u = priceOf c u := by
  rw [get_on_demand_price]
  cases hl : lookupRat c.cache t with
  | some p => rfl
  | none =>
    by_cases ht : t = ""
    · simp [ht]
    · simp only [if_neg ht]
      have hstep : ∀ q : ℚ, (c.fetch t).getD 0 = q →
          priceOf { c with cache := (t, q) :: c.cache } u = priceOf c u := by
        intro q hq
        rw [priceOf, priceOf, lookupRat_cons]
        by_cases htu : t == u
        · have htu2 : t = u := by simpa using htu
          rw [if_pos htu, ← htu2, hl, if_neg ht, hq]
        · rw [if_neg htu]
      cases hf : c.fetch t with
      | some p =>
        simpa using hstep p (by rw [hf]; rfl)
      | none =>
        simpa using hstep 0 (by rw [hf]; rfl)

theorem god_hit (c : CostCalc) (t : String) (p : ℚ)
    (h : lookupRat c.cache t = some p) :
    get_on_demand_price c t = (p, c, false) := by
  rw [get_on_demand_price, h]

theorem god_query_caches (c : CostCalc) (t : String)
    (h : (get_on_demand_price c t).2.2 = true) :
    lookupRat c.cache t = none ∧
      (lookupRat ((get_on_demand_price c t).2.1).cache t).isSome = true := by
  cases hl : lookupRat c.cache t with
  | some p =>
    rw [god_hit c t p hl] at h
    exact Bool.noConfusion h
  | none =>
    by_cases ht : t = ""
    · have hb : (get_on_demand_price c t).2.2 = false := by
        simp only [get_on_demand_price, hl, if_pos ht]
      rw [hb] at h
      exact Bool.noConfusion h
    · refine ⟨rfl, ?_⟩
      cases hf : c.fetch t with
      | some p => simp [get_on_demand_price, hl, ht, hf, lookupRat_cons]
      | none => simp [get_on_demand_price, hl, ht, hf, lookupRat_cons]

theorem god_cached_mono (c : CostCalc) (t u : String)
    (h : (lookupRat c.cache u).isSome = true) :
    (lookupRat ((get_on_demand_price c t).2.1).cache u).isSome = true := by
  cases hl : lookupRat c.cache t with
  | some p =>
    rw [god_hit c t p hl]
    exact h
  | none =>
    by_cases ht : t = ""
    · simp only [get_on_demand_price, hl, if_pos ht]
      exact h
    · by_cases htu : t = u
      · subst htu
        rw [hl] at h
        exact Bool.noConfusion h
      · cases hf : c.fetch t with
        | some p => simp [get_on_demand_price, hl, ht, hf, lookupRat_cons, htu, h]
        | none => simp [get_on_demand_price, hl, ht, hf, lookupRat_cons, htu, h]

theorem callSeq_cached_mono (c : CostCalc) (ts : List String) (u : String)
    (h : (lookupRat c.cache u).isSome = true) :
    (lookupRat ((callSeq c ts).1).cache u).isSome = true := by
  induction ts generalizing c with
  | nil => exact h
  | cons t rest ih => exact ih _ (god_cached_mono c t u h)

theorem callSeq_count_zero (c : CostCalc) (ts : List String) (k : String)
    (h : (lookupRat c.cache k).isSome = true) :
    ((callSeq c ts).2.count k) = 0 := by
  induction ts generalizing c with
  | nil => rfl
  | cons t rest ih =>
    show ((qlog (get_on_demand_price c t).2.2 t
      ++ (callSeq (get_on_demand_price c t).2.1 rest).2).count k) = 0
    rw [List.count_append]
    have hrest := ih _ (god_cached_mono c t k h)
    cases hq : (get_on_demand_price c t).2.2 with
    | false => simp [qlog, hrest]
    | true =>
      have hmiss := (god_query_caches c t hq).1
      have htk : t ≠ k := by
        intro he
        rw [← he, hmiss] at h
        exact Bool.noConfusion h
      simp [qlog, hrest, List.count_singleton, htk]

theorem callSeq_count_le_one (c : CostCalc) (ts : List String) (k : String) :
    ((callSeq c ts).2.count k) ≤ 1 := by
  induction ts generalizing c with
  | nil => exact Nat.zero_le 1
  | cons t rest ih =>
    show ((qlog (get_on_demand_price c t).2.2 t
      ++ (callSeq (get_on_demand_price c t).2.1 rest).2).count k) ≤ 1
    rw [List.count_append]
    cases hq : (get_on_demand_price c t).2.2 with
    | false => simpa [qlog] using ih (get_on_demand_price c t).2.1
    | true =>
      by_cases htk : t = k
      · have hcached := (god_query_caches c t hq).2
        rw [htk] at hcached
        have hrest := callSeq_count_zero _ rest k hcached
        simp [qlog, htk, hrest]
      · have hrest := ih (get_on_demand_price c t).2.1
        simp [qlog, List.count_singleton, htk]
        omega

/-- The interleaved key list of the per-record enrichment loop. -/
def keysOf (recs : List PRec) : List String :=
  recs.flatMap (fun r => [r.current_instance_type, r.recommended_instance_type])

theorem enrichLoop_calls (recs : List PRec) (c : CostCalc) :
    (enrichLoop c recs).2.1 = (callSeq c (keysOf recs)).1 ∧
      (enrichLoop c recs).2.2 = (callSeq c (keysOf recs)).2 := by
  induction recs generalizing c with
  | nil => exact ⟨rfl, rfl⟩
  | cons r rest ih =>
    have h2 := ih (get_on_demand_price
      (get_on_demand_price c r.current_instance_type).2.1
      r.recommended_instance_type).2.1
    have hk : keysOf (r :: rest) = r.current_instance_type
        :: r.recommended_instance_type :: keysOf rest := by
      simp [keysOf]
    constructor
    · simp only [enrichLoop, callSeq, hk, h2.1]
      simp [keysOf, List.flatMap]
    · simp only [enrichLoop, callSeq, hk, h2.2, List.append_assoc]
      simp [keysOf, List.flatMap]

theorem callSeq_append (c : CostCalc) (xs ys : List String) :
    (callSeq c (xs ++ ys)).1 = (callSeq (callSeq c xs).1 ys).1 ∧
      (callSeq c (xs ++ ys)).2
        = (callSeq c xs).2 ++ (callSeq (callSeq c xs).1 ys).2 := by
  induction xs generalizing c with
  | nil => exact ⟨rfl, rfl⟩
  | cons x rest ih =>
    obtain ⟨ih1, ih2⟩ := ih (get_on_demand_price c x).2.1
    have hcs : (callSeq c (x :: rest)).1
        = (callSeq (get_on_demand_price c x).2.1 rest).1 := rfl
    constructor
    · show (callSeq (get_on_demand_price c x).2.1 (rest ++ ys)).1 = _
      rw [ih1, hcs]
    · show qlog (get_on_demand_price c x).2.2 x
          ++ (callSeq (get_on_demand_price c x).2.1 (rest ++ ys)).2
        = (qlog (get_on_demand_price c x).2.2 x
            ++ (callSeq (get_on_demand_price c x).2.1 rest).2)
          ++ (callSeq (callSeq c (x :: rest)).1 ys).2
      rw [ih2, hcs, List.append_assoc]

/-- The keys each calculator operation looks up, in call order. -/
def opKeys : CalcOp → List String
  | .priceCall t => [t]
  | .enrichCall recs => collectTypes recs ++ keysOf recs

theorem runOp_calls (c : CostCalc) (op : CalcOp) :
    (runOp c op).1 = (callSeq c (opKeys op)).1 ∧
      (runOp c op).2 = (callSeq c (opKeys op)).2 := by
  cases op with
  | priceCall t =>
    constructor
    · rfl
    · show qlog (get_on_demand_price c t).2.2 t
        = qlog (get_on_demand_price c t).2.2 t ++ []
      rw [List.append_nil]
  | enrichCall recs =>
    obtain ⟨ha1, ha2⟩ := callSeq_append c (collectTypes recs) (keysOf recs)
    obtain ⟨hl1, hl2⟩ := enrichLoop_calls recs (callSeq c (collectTypes recs)).1
    constructor
    · show (enrichLoop (callSeq c (collectTypes recs)).1 recs).2.1
        = (callSeq c (collectTypes recs ++ keysOf recs)).1
      rw [hl1, ha1]
    · show (callSeq c (collectTypes recs)).2
          ++ (enrichLoop (callSeq c (collectTypes recs)).1 recs).2.2
        = (callSeq c (collectTypes recs ++ keysOf recs)).2
      rw [hl2, ha2]

theorem runOps_calls (c : CostCalc) (ops : List CalcOp) :
    (runOps c ops).1 = (callSeq c (ops.flatMap opKeys)).1 ∧
      (runOps c ops).2 = (callSeq c (ops.flatMap opKeys)).2 := by
  induction ops generalizing c with
  | nil => exact ⟨rfl, rfl⟩
  | cons op rest ih =>
    obtain ⟨ho1, ho2⟩ := runOp_calls c op
    obtain ⟨ha1, ha2⟩ := callSeq_append c (opKeys op) (rest.flatMap opKeys)
    obtain ⟨ih1, ih2⟩ := ih (runOp c op).1
    constructor
    · show (runOps (runOp c op).1 rest).1
        = (callSeq c (opKeys op ++ rest.flatMap opKeys)).1
      rw [ih1, ho1, ← ha1]
    · show (runOp c op).2 ++ (runOps (runOp c op).1 rest).2
        = (callSeq c (opKeys op ++ rest.flatMap opKeys)).2
      rw [ih2, ho2, ho1, ← ha2]

theorem callSeq_caches_mem (c : CostCalc) (ts : List String) (t : String)
    (hmem : t ∈ ts) (hne : t ≠ "") :
    (lookupRat ((callSeq c ts).1).cache t).isSome = true := by
  induction ts generalizing c with
  | nil => cases hmem
  | cons t0 rest ih =>
    rcases List.mem_cons.mp hmem with rfl | hmem2
    · show (lookupRat ((callSeq (get_on_demand_price c t).2.1 rest).1).cache
        t).isSome = true
      apply callSeq_cached_mono
      cases hl : lookupRat c.cache t with
      | some p => simp [god_hit c t p hl, hl]
      | none =>
        cases hf : c.fetch t with
        | some p => simp [get_on_demand_price, hl, hne, hf, lookupRat_cons]
        | none => simp [get_on_demand_price, hl, hne, hf, lookupRat_cons]
    · exact ih _ hmem2

theorem callSeq_no_query (c : CostCalc) (ts : List String)
    (h : ∀ t ∈ ts, t = "" ∨ (lookupRat c.cache t).isSome = true) :
    (callSeq c ts).2 = [] := by
  induction ts generalizing c with
  | nil => rfl
  | cons t rest ih =>
    have hstate : (get_on_demand_price c t).2.1 = c := by
      rcases h t (List.mem_cons_self t rest) with ht | ht
      · rw [get_on_demand_price]
        cases hl : lookupRat c.cache t with
        | some p => rfl
        | none => rw [if_pos ht]
      · obtain ⟨p, hp⟩ := Option.isSome_iff_exists.mp ht
        rw [god_hit c t p hp]
    have hb : (get_on_demand_price c t).2.2 = false := by
      rcases h t (List.mem_cons_self t rest) with ht | ht
      · rw [get_on_demand_price]
        cases hl : lookupRat c.cache t with
        | some p => rfl
        | none => rw [if_pos ht]
      · obtain ⟨p, hp⟩ := Option.isSome_iff_exists.mp ht
        rw [god_hit c t p hp]
    show qlog (get_on_demand_price c t).2.2 t
      ++ (callSeq (get_on_demand_price c t).2.1 rest).2 = []
    rw [hb, hstate, ih c (fun u hu => h u (List.mem_cons_of_mem t hu))]
    rfl

theorem mem_collectTypes_of_keysOf (recs : List PRec) (t : String)
    (hmem : t ∈ keysOf recs) (hne : t ≠ "") : t ∈ collectTypes recs := by
  rw [collectTypes, List.mem_dedup]
  rw [keysOf] at hmem
  obtain ⟨r, hr, hR⟩ := List.mem_flatMap.mp hmem
  apply List.mem_flatMap.mpr
  refine ⟨r, hr, ?_⟩
  simp only [List.mem_cons, List.not_mem_nil, or_false] at hR
  rcases hR with rfl | rfl
  · simp [List.mem_append, hne]
  · by_cases hc : r.current_instance_type = "" <;> simp [List.mem_append, hne, hc]

/-- After the pre-warm pass, the per-record loop issues no external query. -/
theorem enrichLoop_no_query_after_prewarm (c : CostCalc) (recs : List PRec) :
    (enrichLoop (callSeq c (collectTypes recs)).1 recs).2.2 = [] := by
  rw [(enrichLoop_calls recs _).2]
  apply callSeq_no_query
  intro t ht
  by_cases hne : t = ""
  · exact Or.inl hne
  · exact Or.inr (callSeq_caches_mem c _ t
      (mem_collectTypes_of_keysOf recs t ht hne) hne)

theorem callSeq_stable (c : CostCalc) (ts : List String) (u : String) :
    priceOf (callSeq c ts).1 u = priceOf c u := by
  induction ts generalizing c with
  | nil => rfl
  | cons t rest ih =>
    show priceOf (callSeq (get_on_demand_price c t).2.1 rest).1 u = priceOf c u
    rw [ih, god_stable]

theorem pyRound_zero (n : ℕ) : pyRound n 0 = 0 := by
  simp [pyRound]

/-- Field characterization of the per-record enrichment loop: each output
record's hourly fields are `round(p, 6)` and monthly fields
`round(p * 730.0, 2)` for the price `p` the calculator resolves for the
record's type keys, and the difference is computed from the two stored
monthly fields. -/
theorem enrichLoop_fields (recs : List PRec) :
    ∀ (c : CostCalc) (i : ℕ) (r : PRec), recs[i]? = some r →
    ∃ out, (enrichLoop c recs).1[i]? = some out ∧
      out.current_instance_price = pyRound 6 (priceOf c r.current_instance_type) ∧
      out.recommended_instance_price
        = pyRound 6 (priceOf c r.recommended_instance_type) ∧
      out.current_on_demand_price
        = pyRound 2 (priceOf c r.current_instance_type * MONTHLY_HOURS) ∧
      out.recommended_on_demand_price
        = pyRound 2 (priceOf c r.recommended_instance_type * MONTHLY_HOURS) ∧
      out.price_difference = pyRound 2
        (out.current_on_demand_price - out.recommended_on_demand_price) := by
  induction recs with
  | nil =>
    intro c i r h
    simp at h
  | cons r0 rest ih =>
    intro c i r h
    have hcons : (enrichLoop c (r0 :: rest)).1
        = { r0 with
            current_instance_price :=
              pyRound 6 (get_on_demand_price c r0.current_instance_type).1
            recommended_instance_price :=
              pyRound 6 (get_on_demand_price
                (get_on_demand_price c r0.current_instance_type).2.1
                r0.recommended_instance_type).1
            current_on_demand_price :=
              pyRound 2 ((get_on_demand_price c r0.current_instance_type).1
                * MONTHLY_HOURS)
            recommended_on_demand_price :=
              pyRound 2 ((get_on_demand_price
                (get_on_demand_price c r0.current_instance_type).2.1
                r0.recommended_instance_type).1 * MONTHLY_HOURS)
            price_difference :=
              pyRound 2
                (pyRound 2 ((get_on_demand_price c r0.current_instance_type).1
                  * MONTHLY_HOURS)
                - pyRound 2 ((get_on_demand_price
                    (get_on_demand_price c r0.current_instance_type).2.1
                    r0.recommended_instance_type).1 * MONTHLY_HOURS)) }
          :: (enrichLoop (get_on_demand_price
              (get_on_demand_price c r0.current_instance_type).2.1
              r0.recommended_instance_type).2.1 rest).1 := by
      simp only [enrichLoop]
    cases i with
    | zero =>
      simp only [List.getElem?_cons_zero, Option.some.injEq] at h
      subst h
      refine ⟨_, by rw [hcons, List.getElem?_cons_zero], ?_, ?_, ?_, ?_, rfl⟩
      · show pyRound 6 (get_on_demand_price c r0.current_instance_type).1 = _
        rw [god_fst]
      · show pyRound 6 (get_on_demand_price
            (get_on_demand_price c r0.current_instance_type).2.1
            r0.recommended_instance_type).1 = _
        rw [god_fst, god_stable]
      · show pyRound 2 ((get_on_demand_price c r0.current_instance_type).1
            * MONTHLY_HOURS) = _
        rw [god_fst]
      · show pyRound 2 ((get_on_demand_price
            (get_on_demand_price c r0.current_instance_type).2.1
            r0.recommended_instance_type).1 * MONTHLY_HOURS) = _
        rw [god_fst, god_stable]
    | succ n =>
      simp only [List.getElem?_cons_succ] at h
      obtain ⟨out, ho, h1, h2, h3, h4, h5⟩ := ih
        (get_on_demand_price
          (get_on_demand_price c r0.current_instance_type).2.1
          r0.recommended_instance_type).2.1 n r h
      have hs : ∀ u, priceOf (get_on_demand_price
          (get_on_demand_price c r0.current_instance_type).2.1
          r0.recommended_instance_type).2.1 u = priceOf c u := by
        intro u
        rw [god_stable, god_stable]
      rw [hs] at h1 h2 h3 h4
      refine ⟨out, ?_, h1, h2, h3, h4, h5⟩
      rw [hcons, List.getElem?_cons_succ]
      exact ho

/-- Claim C6 counterexample: The stored monthly price is *not* in general
`round(stored_hourly * 730.0, 2)`: for a source price of `0.000006501`
(7 significant decimals), the stored hourly is `round(p, 6) = 0.000007` and
`round(0.000007 * 730, 2) = 0.01`, while the code stores
`round(p * 730, 2) = 0.0` computed from the unrounded price. -/
theorem stored_monthly_not_rounded_stored_hourly :
    ∃ out, (enrich_recommendations
        ⟨[], fun t => if t = "a.b" then some ((6501 : ℚ) / 1000000000) else none⟩
        [⟨"a.b", "a.b", 0, 0, 0, 0, 0⟩]).1[0]? = some out ∧
      out.current_on_demand_price
        ≠ pyRound 2 (out.current_instance_price * MONTHLY_HOURS) := by
  refine ⟨⟨"a.b", "a.b", pyRound 6 ((6501 : ℚ) / 1000000000),
    pyRound 6 ((6501 : ℚ) / 1000000000),
    pyRound 2 ((6501 : ℚ) / 1000000000 * MONTHLY_HOURS),
    pyRound 2 ((6501 : ℚ) / 1000000000 * MONTHLY_HOURS),
    pyRound 2 (pyRound 2 ((6501 : ℚ) / 1000000000 * MONTHLY_HOURS)
      - pyRound 2 ((6501 : ℚ) / 1000000000 * MONTHLY_HOURS))⟩, rfl, ?_⟩
  show pyRound 2 ((6501 : ℚ) / 1000000000 * MONTHLY_HOURS)
    ≠ pyRound 2 (pyRound 6 ((6501 : ℚ) / 1000000000) * MONTHLY_HOURS)
  norm_num [pyRound, round_eq, MONTHLY_HOURS]

/-- Claim C6 amended: After price enrichment, the stored hourly fields are
`round(p, 6)` and the stored monthly fields `round(p * 730.0, 2)`, where `p`
is the raw price the calculator resolves for the instance type (cache,
else source, else `0`) — the monthly figure is computed from the raw price,
not from the 6-decimal-rounded stored hourly (the two agree only when `p`
has at most 6 decimals); the monthly difference is computed from the two
stored monthly fields; and for a type the source has no price for, both the
hourly and monthly fields are `0.0` and no exception is raised (the
embedding is total). -/
theorem price_enrichment_fields (c0 : CostCalc) (recs : List PRec) (i : ℕ)
    (rec : PRec) (h : recs[i]? = some rec) :
    ∃ out, (enrich_recommendations c0 recs).1[i]? = some out ∧
      out.current_instance_price = pyRound 6 (priceOf c0 rec.current_instance_type) ∧
      out.recommended_instance_price
        = pyRound 6 (priceOf c0 rec.recommended_instance_type) ∧
      out.current_on_demand_price
        = pyRound 2 (priceOf c0 rec.current_instance_type * MONTHLY_HOURS) ∧
      out.recommended_on_demand_price
        = pyRound 2 (priceOf c0 rec.recommended_instance_type * MONTHLY_HOURS) ∧
      out.price_difference = pyRound 2
        (out.current_on_demand_price - out.recommended_on_demand_price) ∧
      ((lookupRat c0.cache rec.current_instance_type = none ∧
          c0.fetch rec.current_instance_type = none) →
        out.current_instance_price = 0 ∧ out.current_on_demand_price = 0) := by
  obtain ⟨out, ho, h1, h2, h3, h4, h5⟩ := enrichLoop_fields recs
    (callSeq c0 (collectTypes recs)).1 i rec h
  rw [callSeq_stable] at h1 h2 h3 h4
  refine ⟨out, ho, h1, h2, h3, h4, h5, ?_⟩
  rintro ⟨hc, hf⟩
  have hzero : priceOf c0 rec.current_instance_type = 0 := by
    rw [priceOf, hc]
    by_cases he : rec.current_instance_type = ""
    · rw [if_pos he]
    · rw [if_neg he, hf]
      rfl
  rw [h1, h3, hzero]
  constructor
  · exact pyRound_zero 6
  · rw [zero_mul]
    exact pyRound_zero 2

/-- Witness for the amended C6: a one-record batch priced against a source
that knows neither type; all price fields come out as the rounded resolved
prices (here zero). -/
theorem price_enrichment_fields_witness :
    ∃ out, (enrich_recommendations ⟨[], fun _ => none⟩
        [⟨"t1.a", "t2.b", 0, 0, 0, 0, 0⟩]).1[0]? = some out ∧
      out.current_instance_price
        = pyRound 6 (priceOf ⟨[], fun _ => none⟩ "t1.a") ∧
      out.recommended_instance_price
        = pyRound 6 (priceOf ⟨[], fun _ => none⟩ "t2.b") ∧
      out.current_on_demand_price
        = pyRound 2 (priceOf ⟨[], fun _ => none⟩ "t1.a" * MONTHLY_HOURS) ∧
      out.recommended_on_demand_price
        = pyRound 2 (priceOf ⟨[], fun _ => none⟩ "t2.b" * MONTHLY_HOURS) ∧
      out.price_difference = pyRound 2
        (out.current_on_demand_price - out.recommended_on_demand_price) ∧
      out.current_instance_price = 0 ∧ out.current_on_demand_price = 0 := by
  obtain ⟨out, ho, h1, h2, h3, h4, h5, h6⟩ := price_enrichment_fields
    ⟨[], fun _ => none⟩ [⟨"t1.a", "t2.b", 0, 0, 0, 0, 0⟩] 0
    ⟨"t1.a", "t2.b", 0, 0, 0, 0, 0⟩ rfl
  exact ⟨out, ho, h1, h2, h3, h4, h5, h6 ⟨rfl, rfl⟩⟩

/-- Claim C9: Within one `CostCalculator` instance, the external price source
is queried at most once per distinct instance-type key across any sequence
of `get_on_demand_price` and `enrich_recommendations` calls: a cached key is
answered from the cache with no query and no state change; any operation
sequence queries each key at most once; and `enrich_recommendations`
pre-warms the cache over the de-duplicated union of the batch's type keys,
after which the per-record loop issues no external query at all (the run's
whole query log is the pre-warm log). -/
theorem price_source_queried_at_most_once :
    (∀ (c : CostCalc) (t : String) (p : ℚ), lookupRat c.cache t = some p →
      get_on_demand_price c t = (p, c, false)) ∧
    (∀ (c : CostCalc) (ops : List CalcOp) (k : String),
      ((runOps c ops).2.count k) ≤ 1) ∧
    (∀ (c : CostCalc) (recs : List PRec),
      (enrichLoop (callSeq c (collectTypes recs)).1 recs).2.2 = [] ∧
      (enrich_recommendations c recs).2.2 = (callSeq c (collectTypes recs)).2) := by
  refine ⟨god_hit, ?_, ?_⟩
  · intro c ops k
    rw [(runOps_calls c ops).2]
    exact callSeq_count_le_one c _ k
  · intro c recs
    refine ⟨enrichLoop_no_query_after_prewarm c recs, ?_⟩
    show (callSeq c (collectTypes recs)).2
      ++ (enrichLoop (callSeq c (collectTypes recs)).1 recs).2.2
      = (callSeq c (collectTypes recs)).2
    rw [enrichLoop_no_query_after_prewarm c recs, List.append_nil]

/-- Witness for C9: a pre-cached key is answered without a query and with
the state unchanged; calling the same key twice queries at most once. -/
theorem price_source_queried_at_most_once_witness :
    get_on_demand_price ⟨[("m5.xlarge", 5)], fun _ => none⟩ "m5.xlarge"
      = (5, ⟨[("m5.xlarge", 5)], fun _ => none⟩, false) ∧
    ((runOps ⟨[], fun _ => some 1⟩
      [CalcOp.priceCall "m5.xlarge", CalcOp.priceCall "m5.xlarge"]).2.count
        "m5.xlarge") ≤ 1 :=
  ⟨price_source_queried_at_most_once.1 ⟨[("m5.xlarge", 5)], fun _ => none⟩
      "m5.xlarge" 5 rfl,
    price_source_queried_at_most_once.2.1 ⟨[], fun _ => some 1⟩
      [CalcOp.priceCall "m5.xlarge", CalcOp.priceCall "m5.xlarge"] "m5.xlarge"⟩

theorem matchPat_some (pat : List PatElem) (cs m : List Char)
    (h : matchPat pat cs = some m) :
    checkPat pat m = true ∧ ∃ rest, cs = m ++ rest := by
  induction pat generalizing cs m with
  | nil =>
    simp only [matchPat, Option.some.injEq] at h
    subst h
    exact ⟨rfl, cs, rfl⟩
  | cons p ps ih =>
    cases cs with
    | nil => exact Option.noConfusion h
    | cons c cs2 =>
      simp only [matchPat] at h
      by_cases he : elemMatch p c
      · rw [if_pos he] at h
        cases hmp : matchPat ps cs2 with
        | none => rw [hmp] at h; simp at h
        | some m2 =>
          rw [hmp] at h
          have h2 : some (c :: m2) = some m := h
          have h3 := Option.some.inj h2
          subst h3
          obtain ⟨hchk, rest, heq⟩ := ih cs2 m2 hmp
          exact ⟨by simp [checkPat, he, hchk], rest, by simp [heq]⟩
      · rw [if_neg he] at h
        exact Option.noConfusion h

theorem matchPat_of_check (pat : List PatElem) (m rest : List Char)
    (h : checkPat pat m = true) :
    matchPat pat (m ++ rest) = some m := by
  induction pat generalizing m with
  | nil =>
    cases m with
    | nil => rfl
    | cons c m2 => exact Bool.noConfusion h
  | cons p ps ih =>
    cases m with
    | nil => exact Bool.noConfusion h
    | cons c m2 =>
      simp only [checkPat, Bool.and_eq_true] at h
      simp only [List.cons_append, matchPat, if_pos h.1, List.append_eq,
        ih m2 h.2]
      rfl

theorem searchTs_none_iff (cs : List Char) :
    searchTs cs = none ↔
      ¬ ∃ pre mid post, cs = pre ++ mid ++ post ∧ checkPat tsPat mid = true := by
  induction cs with
  | nil =>
    constructor
    · rintro - ⟨pre, mid, post, heq, hchk⟩
      have h2 : pre ++ mid ++ post = [] := heq.symm
      rw [List.append_eq_nil, List.append_eq_nil] at h2
      rw [h2.1.2] at hchk
      exact absurd hchk (by decide)
    · intro _
      rfl
  | cons c t ih =>
    cases hm : matchPat tsPat (c :: t) with
    | some m =>
      have hs : searchTs (c :: t) = some m := by
        simp only [searchTs, hm]
      apply iff_of_false
      · rw [hs]
        exact Option.noConfusion
      · intro hno
        obtain ⟨hchk, rest, heq⟩ := matchPat_some tsPat (c :: t) m hm
        exact hno ⟨[], m, rest, by simp [heq], hchk⟩
    | none =>
      have hs : searchTs (c :: t) = searchTs t := by
        simp only [searchTs, hm]
      rw [hs, ih]
      apply not_congr
      constructor
      · rintro ⟨pre, mid, post, heq, hchk⟩
        exact ⟨c :: pre, mid, post, by simp [heq], hchk⟩
      · rintro ⟨pre, mid, post, heq, hchk⟩
        cases pre with
        | nil =>
          simp only [List.nil_append] at heq
          rw [heq, matchPat_of_check tsPat mid post hchk] at hm
          exact Option.noConfusion hm
        | cons a pre2 =>
          simp only [List.cons_append, List.cons.injEq] at heq
          exact ⟨pre2, mid, post, heq.2, hchk⟩

theorem searchTs_some_spec (cs m : List Char) (h : searchTs cs = some m) :
    checkPat tsPat m = true ∧ ∃ pre post, cs = pre ++ m ++ post := by
  induction cs with
  | nil => exact Option.noConfusion h
  | cons c t ih =>
    cases hm : matchPat tsPat (c :: t) with
    | some m2 =>
      have hs : searchTs (c :: t) = some m2 := by
        simp only [searchTs, hm]
      rw [hs, Option.some.injEq] at h
      subst h
      obtain ⟨hchk, rest, heq⟩ := matchPat_some tsPat (c :: t) m2 hm
      exact ⟨hchk, [], rest, by simp [heq]⟩
    | none =>
      have hs : searchTs (c :: t) = searchTs t := by
        simp only [searchTs, hm]
      rw [hs] at h
      obtain ⟨hchk, pre, post, heq⟩ := ih h
      exact ⟨hchk, c :: pre, post, by simp [heq]⟩

/-- Claim C7: The Stage-2 trigger guards, in source order: a notification with
no records yields the 400 client-error response; an object key not ending in
`.json` yields a 200 no-op (checked before the `/validated/` guard); a
`.json` key containing `/validated/` yields a 200 no-op; otherwise the
handler proceeds with the correlation timestamp extracted from the key — the
leftmost substring matching the fixed `YYYY-MM-DD_HH-MM-SS` pattern, and the
empty string exactly when no such substring exists.  The spec's scenario
keys behave accordingly. -/
theorem stage2_trigger_guards :
    (∀ e : S3Event, e.records = [] →
      handlerGuards e = .clientError "No Records found in S3 event" ∧
      guardStatus (handlerGuards e) = 400) ∧
    (∀ (e : S3Event) (b k : String) (rest : List S3EventRecord),
      e.records = ⟨b, k⟩ :: rest → b ≠ "" → k ≠ "" →
      (strEndsWith k ".json" = false →
        handlerGuards e = .skip ("Skipped non-JSON file: " ++ k) ∧
        guardStatus (handlerGuards e) = 200) ∧
      (strEndsWith k ".json" = true → strContains k "/validated/" = true →
        handlerGuards e = .skip ("Skipped validated report: " ++ k) ∧
        guardStatus (handlerGuards e) = 200) ∧
      (strEndsWith k ".json" = true → strContains k "/validated/" = false →
        handlerGuards e = .proceed b k (extract_timestamp k))) ∧
    (∀ key : String, extract_timestamp key = "" ↔
      ¬ ∃ pre mid post, key.data = pre ++ mid ++ post ∧
        checkPat tsPat mid = true) ∧
    (∀ key : String, extract_timestamp key ≠ "" →
      checkPat tsPat (extract_timestamp key).data = true ∧
      ∃ pre post, key.data = pre ++ (extract_timestamp key).data ++ post) ∧
    extract_timestamp "reports/2025-01-15_12-00-00/x.json"
      = "2025-01-15_12-00-00" ∧
    handlerGuards ⟨[⟨"b", "reports/2025-01-15/validated/x.json"⟩]⟩
      = .skip "Skipped validated report: reports/2025-01-15/validated/x.json" ∧
    handlerGuards ⟨[⟨"b", "reports/2025-01-15/x.csv"⟩]⟩
      = .skip "Skipped non-JSON file: reports/2025-01-15/x.csv" ∧
    handlerGuards ⟨[⟨"b", "reports/2025-01-15_12-00-00/x.json"⟩]⟩
      = .proceed "b" "reports/2025-01-15_12-00-00/x.json"
          "2025-01-15_12-00-00" := by
  refine ⟨?_, ?_, ?_, ?_, ?_, ?_, ?_, ?_⟩
  · intro e hrec
    have hg : handlerGuards e = .clientError "No Records found in S3 event" := by
      simp only [handlerGuards, parse_s3_event, hrec]
    exact ⟨hg, by rw [hg]; rfl⟩
  · intro e b k rest hrec hb hk
    have hparse : parse_s3_event e = .ok (b, k) := by
      simp only [parse_s3_event, hrec]
      rw [if_neg (by simp [hb, hk])]
    refine ⟨?_, ?_, ?_⟩
    · intro hjson
      have hg : handlerGuards e = .skip ("Skipped non-JSON file: " ++ k) := by
        simp only [handlerGuards, hparse]
        rw [if_pos (by simp [hjson])]
      exact ⟨hg, by rw [hg]; rfl⟩
    · intro hjson hval
      have hg : handlerGuards e
          = .skip ("Skipped validated report: " ++ k) := by
        simp only [handlerGuards, hparse]
        rw [if_neg (by simp [hjson]), if_pos hval]
      exact ⟨hg, by rw [hg]; rfl⟩
    · intro hjson hval
      simp only [handlerGuards, hparse]
      rw [if_neg (by simp [hjson]), if_neg (by simp [hval])]
  · intro key
    cases hs : searchTs key.data with
    | none =>
      have he : extract_timestamp key = "" := by
        simp only [extract_timestamp, hs]
      rw [he]
      simpa using (searchTs_none_iff key.data).mp hs
    | some m =>
      have he : extract_timestamp key = String.mk m := by
        simp only [extract_timestamp, hs]
      obtain ⟨hchk, pre, post, heq⟩ := searchTs_some_spec key.data m hs
      apply iff_of_false
      · rw [he]
        intro hmk
        cases m with
        | nil => exact absurd hchk (by decide)
        | cons a m2 => exact String.noConfusion hmk (fun h2 => List.noConfusion h2)
      · intro hno
        exact hno ⟨pre, m, post, heq, hchk⟩
  · intro key hne
    cases hs : searchTs key.data with
    | none =>
      exact absurd (by simp only [extract_timestamp, hs]) hne
    | some m =>
      have he : extract_timestamp key = String.mk m := by
        simp only [extract_timestamp, hs]
      obtain ⟨hchk, pre, post, heq⟩ := searchTs_some_spec key.data m hs
      rw [he]
      exact ⟨hchk, pre, post, heq⟩
  · rfl
  · rfl
  · rfl
  · rfl

/-- Witness for C7 at concrete trigger events: an empty notification is a
400; the scenario keys skip or proceed as the guards dictate. -/
theorem stage2_trigger_guards_witness :
    (handlerGuards ⟨[]⟩ = .clientError "No Records found in S3 event" ∧
      guardStatus (handlerGuards ⟨[]⟩) = 400) ∧
    (handlerGuards ⟨[⟨"b", "reports/2025-01-15/x.csv"⟩]⟩
        = .skip "Skipped non-JSON file: reports/2025-01-15/x.csv" ∧
      guardStatus (handlerGuards ⟨[⟨"b", "reports/2025-01-15/x.csv"⟩]⟩) = 200) ∧
    (handlerGuards ⟨[⟨"b", "reports/2025-01-15/validated/x.json"⟩]⟩
        = .skip "Skipped validated report: reports/2025-01-15/validated/x.json" ∧
      guardStatus (handlerGuards
        ⟨[⟨"b", "reports/2025-01-15/validated/x.json"⟩]⟩) = 200) ∧
    handlerGuards ⟨[⟨"b", "reports/2025-01-15_12-00-00/x.json"⟩]⟩
      = .proceed "b" "reports/2025-01-15_12-00-00/x.json"
          (extract_timestamp "reports/2025-01-15_12-00-00/x.json") ∧
    extract_timestamp "reports/2025-01-15/x.csv" = "" := by
  refine ⟨stage2_trigger_guards.1 ⟨[]⟩ rfl,
    (stage2_trigger_guards.2.1 ⟨[⟨"b", "reports/2025-01-15/x.csv"⟩]⟩
      "b" "reports/2025-01-15/x.csv" [] rfl (by decide) (by decide)).1 rfl,
    ((stage2_trigger_guards.2.1 ⟨[⟨"b", "reports/2025-01-15/validated/x.json"⟩]⟩
      "b" "reports/2025-01-15/validated/x.json" [] rfl (by decide)
      (by decide)).2.1 rfl rfl),
    ((stage2_trigger_guards.2.1 ⟨[⟨"b", "reports/2025-01-15_12-00-00/x.json"⟩]⟩
      "b" "reports/2025-01-15_12-00-00/x.json" [] rfl (by decide)
      (by decide)).2.2 rfl rfl),
    ?_⟩
  exact (stage2_trigger_guards.2.2.1 "reports/2025-01-15/x.csv").mpr
    (by
      rw [← searchTs_none_iff]
      rfl)

theorem stripFenceAux_of_no_fence (cs : List Char) (h : hasFence cs = false) :
    stripFenceAux cs = none := by
  induction cs with
  | nil => rfl
  | cons c t ih =>
    simp only [hasFence, Bool.or_eq_false_iff] at h
    simp only [stripFenceAux, h.1, Bool.false_eq_true, if_false]
    exact ih h.2

theorem fenceAt_ext (c : Char) (l2 post : List Char) :
    fenceAt ((c :: l2) ++ ['`', '`']) = fenceAt ((c :: l2) ++ ('`' :: '`' :: '`' :: post)) := by
  match l2 with
  | [] => simp [fenceAt]
  | [a] => simp [fenceAt]
  | a :: b :: t => simp [fenceAt]

theorem takeUntilFence_spec (body post : List Char)
    (h : hasFence (body ++ ['`', '`']) = false) :
    takeUntilFence (body ++ ('`' :: '`' :: '`' :: post)) = some body := by
  induction body with
  | nil =>
    show takeUntilFence ('`' :: '`' :: '`' :: post) = some []
    rfl
  | cons c b2 ih =>
    have hsplit : hasFence (c :: (b2 ++ ['`', '`']))
        = (fenceAt (c :: (b2 ++ ['`', '`'])) || hasFence (b2 ++ ['`', '`'])) :=
      rfl
    rw [show (c :: b2) ++ ['`', '`'] = c :: (b2 ++ ['`', '`']) from rfl,
      hsplit, Bool.or_eq_false_iff] at h
    have hfa : fenceAt (c :: (b2 ++ ('`' :: '`' :: '`' :: post))) = false := by
      have := fenceAt_ext c b2 post
      rw [show (c :: b2) ++ ['`', '`'] = c :: (b2 ++ ['`', '`']) from rfl,
        show (c :: b2) ++ ('`' :: '`' :: '`' :: post)
          = c :: (b2 ++ ('`' :: '`' :: '`' :: post)) from rfl] at this
      rw [← this]
      exact h.1
    show takeUntilFence (c :: (b2 ++ ('`' :: '`' :: '`' :: post)))
      = some (c :: b2)
    have heq : takeUntilFence (c :: (b2 ++ ('`' :: '`' :: '`' :: post)))
        = if fenceAt (c :: (b2 ++ ('`' :: '`' :: '`' :: post))) then some []
          else (takeUntilFence (b2 ++ ('`' :: '`' :: '`' :: post))).map
            (c :: ·) := rfl
    rw [heq, if_neg (by simp [hfa]), ih h.2]
    rfl

theorem stripFenceAux_json_fence (body post : List Char)
    (h : hasFence (body ++ ['`', '`']) = false) :
    stripFenceAux ('`' :: '`' :: '`' :: 'j' :: 's' :: 'o' :: 'n'
        :: (body ++ ('`' :: '`' :: '`' :: post))) = some body := by
  have heq : stripFenceAux ('`' :: '`' :: '`' :: 'j' :: 's' :: 'o' :: 'n'
      :: (body ++ ('`' :: '`' :: '`' :: post)))
      = match takeUntilFence (body ++ ('`' :: '`' :: '`' :: post)) with
        | some inner => some inner
        | none => stripFenceAux ('`' :: '`' :: 'j' :: 's' :: 'o' :: 'n'
            :: (body ++ ('`' :: '`' :: '`' :: post))) := rfl
  rw [heq, takeUntilFence_spec body post h]

theorem stripFenceAux_plain_fence (body post : List Char)
    (hjson : jsonTagAt (body ++ ('`' :: '`' :: '`' :: post)) = false)
    (h : hasFence (body ++ ['`', '`']) = false) :
    stripFenceAux ('`' :: '`' :: '`'
        :: (body ++ ('`' :: '`' :: '`' :: post))) = some body := by
  have heq : stripFenceAux ('`' :: '`' :: '`'
      :: (body ++ ('`' :: '`' :: '`' :: post)))
      = match takeUntilFence
          (if jsonTagAt (body ++ ('`' :: '`' :: '`' :: post)) then
            (body ++ ('`' :: '`' :: '`' :: post)).drop 4
          else body ++ ('`' :: '`' :: '`' :: post)) with
        | some inner => some inner
        | none => stripFenceAux ('`' :: '`'
            :: (body ++ ('`' :: '`' :: '`' :: post))) := rfl
  rw [heq, hjson]
  simp only [Bool.false_eq_true, if_false]
  rw [takeUntilFence_spec body post h]

theorem fenceAt_take_two (c : Char) (l2 rest : List Char) :
    fenceAt ((c :: l2) ++ rest) = fenceAt ((c :: l2) ++ rest.take 2) := by
  match l2, rest with
  | [], [] => rfl
  | [], [r1] => rfl
  | [], r1 :: r2 :: rr => simp [fenceAt]
  | [a], [] => rfl
  | [a], r1 :: rr => simp [fenceAt]
  | a :: b :: t, rest => simp [fenceAt]

/-- Scanning over a prefix that holds no fence (not even one spilling into
the first two characters of what follows) reaches the same match the scan of
the remainder reaches — the leftmost-match behaviour of `re.search`. -/
theorem stripFenceAux_prefix_skip (pre rest : List Char)
    (h : hasFence (pre ++ rest.take 2) = false) :
    stripFenceAux (pre ++ rest) = stripFenceAux rest := by
  induction pre with
  | nil => rfl
  | cons c pre2 ih =>
    have hsplit : hasFence (c :: (pre2 ++ rest.take 2))
        = (fenceAt (c :: (pre2 ++ rest.take 2))
            || hasFence (pre2 ++ rest.take 2)) := rfl
    rw [show (c :: pre2) ++ rest.take 2 = c :: (pre2 ++ rest.take 2) from rfl,
      hsplit, Bool.or_eq_false_iff] at h
    have hfa : fenceAt (c :: (pre2 ++ rest)) = false := by
      have hft := fenceAt_take_two c pre2 rest
      rw [show (c :: pre2) ++ rest = c :: (pre2 ++ rest) from rfl,
        show (c :: pre2) ++ rest.take 2 = c :: (pre2 ++ rest.take 2) from rfl]
        at hft
      rw [hft]
      exact h.1
    show stripFenceAux (c :: (pre2 ++ rest)) = stripFenceAux rest
    have heq : stripFenceAux (c :: (pre2 ++ rest))
        = if fenceAt (c :: (pre2 ++ rest)) = true then
            (match takeUntilFence
                (if jsonTagAt ((pre2 ++ rest).drop 2) then
                  ((pre2 ++ rest).drop 2).drop 4
                else (pre2 ++ rest).drop 2) with
             | some inner => some inner
             | none => stripFenceAux (pre2 ++ rest))
          else stripFenceAux (pre2 ++ rest) := rfl
    rw [heq, if_neg (by simp [hfa])]
    exact ih h.2

theorem takeUntilFence_of_no_fence (cs : List Char)
    (h : hasFence cs = false) : takeUntilFence cs = none := by
  induction cs with
  | nil => rfl
  | cons c t ih =>
    have hsplit : hasFence (c :: t) = (fenceAt (c :: t) || hasFence t) := rfl
    rw [hsplit, Bool.or_eq_false_iff] at h
    have heq : takeUntilFence (c :: t)
        = if fenceAt (c :: t) = true then some []
          else (takeUntilFence t).map (c :: ·) := rfl
    rw [heq, if_neg (by simp [h.1]), ih h.2]
    rfl

theorem hasFence_drop (n : ℕ) (cs : List Char) (h : hasFence cs = false) :
    hasFence (cs.drop n) = false := by
  induction n generalizing cs with
  | zero => exact h
  | succ m ih =>
    cases cs with
    | nil => exact h
    | cons c t =>
      have hsplit : hasFence (c :: t) = (fenceAt (c :: t) || hasFence t) := rfl
      rw [hsplit, Bool.or_eq_false_iff] at h
      show hasFence (t.drop m) = false
      exact ih t h.2

/-- A backtick run of length one to three followed by fence-free text holds
no complete fence match: every opening the scan finds lacks a closing fence,
so the whole scan fails — the unclosed-fence case of the regex. -/
theorem stripFenceAux_backtick_run : ∀ (n : ℕ) (tail : List Char),
    tail.length ≤ n → hasFence tail = false →
    stripFenceAux ('`' :: '`' :: '`' :: tail) = none ∧
    stripFenceAux ('`' :: '`' :: tail) = none ∧
    stripFenceAux ('`' :: tail) = none := by
  intro n
  induction n with
  | zero =>
    intro tail hlen _
    have ht : tail = [] := List.eq_nil_of_length_eq_zero (Nat.le_zero.mp hlen)
    subst ht
    exact ⟨rfl, rfl, rfl⟩
  | succ m ih =>
    intro tail hlen hf
    have hC : stripFenceAux ('`' :: tail) = none := by
      cases tail with
      | nil => rfl
      | cons c t2 =>
        by_cases hc : c = '`'
        · subst hc
          have hsplit : hasFence ('`' :: t2)
              = (fenceAt ('`' :: t2) || hasFence t2) := rfl
          rw [hsplit, Bool.or_eq_false_iff] at hf
          have hlen2 : t2.length ≤ m := by
            have h2 : t2.length + 1 ≤ m + 1 := by simpa using hlen
            omega
          exact (ih t2 hlen2 hf.2).2.1
        · have hcb : (c == '`') = false := beq_eq_false_iff_ne.mpr hc
          have hfa : fenceAt ('`' :: c :: t2) = false := by
            cases t2 with
            | nil => rfl
            | cons d t3 => simp [fenceAt, hcb]
          have heq : stripFenceAux ('`' :: c :: t2)
              = if fenceAt ('`' :: c :: t2) = true then
                  (match takeUntilFence
                      (if jsonTagAt ((c :: t2).drop 2) then
                        ((c :: t2).drop 2).drop 4
                      else (c :: t2).drop 2) with
                   | some inner => some inner
                   | none => stripFenceAux (c :: t2))
                else stripFenceAux (c :: t2) := rfl
          rw [heq, if_neg (by simp [hfa])]
          exact stripFenceAux_of_no_fence (c :: t2) hf
    have hB : stripFenceAux ('`' :: '`' :: tail) = none := by
      cases tail with
      | nil => rfl
      | cons c t2 =>
        by_cases hc : c = '`'
        · subst hc
          have hsplit : hasFence ('`' :: t2)
              = (fenceAt ('`' :: t2) || hasFence t2) := rfl
          rw [hsplit, Bool.or_eq_false_iff] at hf
          have hlen2 : t2.length ≤ m := by
            have h2 : t2.length + 1 ≤ m + 1 := by simpa using hlen
            omega
          exact (ih t2 hlen2 hf.2).1
        · have hcb : (c == '`') = false := beq_eq_false_iff_ne.mpr hc
          have hfa : fenceAt ('`' :: '`' :: c :: t2) = false := by
            simp [fenceAt, hcb]
          have heq : stripFenceAux ('`' :: '`' :: c :: t2)
              = if fenceAt ('`' :: '`' :: c :: t2) = true then
                  (match takeUntilFence
                      (if jsonTagAt (('`' :: c :: t2).drop 2) then
                        (('`' :: c :: t2).drop 2).drop 4
                      else ('`' :: c :: t2).drop 2) with
                   | some inner => some inner
                   | none => stripFenceAux ('`' :: c :: t2))
                else stripFenceAux ('`' :: c :: t2) := rfl
          rw [heq, if_neg (by simp [hfa])]
          exact hC
    have hA : stripFenceAux ('`' :: '`' :: '`' :: tail) = none := by
      have heq : stripFenceAux ('`' :: '`' :: '`' :: tail)
          = match takeUntilFence
              (if jsonTagAt tail then tail.drop 4 else tail) with
            | some inner => some inner
            | none => stripFenceAux ('`' :: '`' :: tail) := rfl
      have htuf : takeUntilFence
          (if jsonTagAt tail then tail.drop 4 else tail) = none := by
        by_cases hj : jsonTagAt tail = true
        · rw [if_pos hj]
          exact takeUntilFence_of_no_fence _ (hasFence_drop 4 tail hf)
        · rw [if_neg hj]
          exact takeUntilFence_of_no_fence tail hf
      rw [heq, htuf]
      exact hB
    exact ⟨hA, hB, hC⟩

/-- Claim C8: `_parse_json_response` strips the first markdown code fence
(optionally tagged `json`) wherever it occurs in the raw text and parses the
stripped enclosed text; with no complete fence — no backtick triple at all,
or an opening fence that is never closed — it parses the stripped raw text;
parsing is delegated to the opaque `json.loads` collaborator, and the call
raises a parse error carrying the original raw text and the underlying
decode failure exactly when the unwrapped text is not valid JSON.  The side
conditions say the text before the fence holds no earlier fence (so the
stated one is the first), the enclosed body contains no fence (wholly or
spilling into the closing backticks) and, for an untagged fence, does not
itself start with a `json` tag — otherwise the regex's first match starts or
closes elsewhere, exactly as the code does. -/
theorem parse_response_fence_and_errors :
    (∀ pre body post : List Char, hasFence (pre ++ ['`', '`']) = false →
      hasFence (body ++ ['`', '`']) = false →
      unwrapResponse (String.mk (pre ++ ('`' :: '`' :: '`' :: 'j' :: 's'
          :: 'o' :: 'n' :: (body ++ ('`' :: '`' :: '`' :: post)))))
        = String.mk (pyStrip body)) ∧
    (∀ pre body post : List Char, hasFence (pre ++ ['`', '`']) = false →
      jsonTagAt (body ++ ('`' :: '`' :: '`' :: post)) = false →
      hasFence (body ++ ['`', '`']) = false →
      unwrapResponse (String.mk (pre ++ ('`' :: '`' :: '`'
          :: (body ++ ('`' :: '`' :: '`' :: post)))))
        = String.mk (pyStrip body)) ∧
    (∀ raw : String, hasFence raw.data = false →
      unwrapResponse raw = String.mk (pyStrip raw.data)) ∧
    (∀ pre tail : List Char, hasFence (pre ++ ['`', '`']) = false →
      hasFence tail = false →
      unwrapResponse (String.mk (pre ++ ('`' :: '`' :: '`' :: tail)))
        = String.mk (pyStrip (pre ++ ('`' :: '`' :: '`' :: tail)))) ∧
    (∀ (J : Type) (jparse : String → Except String J) (raw : String) (v : J),
      parse_json_response jparse raw = .ok v ↔
        jparse (unwrapResponse raw) = .ok v) ∧
    (∀ (J : Type) (jparse : String → Except String J) (raw err : String),
      jparse (unwrapResponse raw) = .error err →
      parse_json_response jparse raw = .error (raw, err)) := by
  refine ⟨?_, ?_, ?_, ?_, ?_, ?_⟩
  · intro pre body post hpre h
    have hstrip : stripFenceAux (pre ++ ('`' :: '`' :: '`' :: 'j' :: 's'
        :: 'o' :: 'n' :: (body ++ ('`' :: '`' :: '`' :: post))))
        = some body := by
      rw [stripFenceAux_prefix_skip pre ('`' :: '`' :: '`' :: 'j' :: 's'
        :: 'o' :: 'n' :: (body ++ ('`' :: '`' :: '`' :: post))) hpre]
      exact stripFenceAux_json_fence body post h
    simp only [unwrapResponse, hstrip]
  · intro pre body post hpre hjson h
    have hstrip : stripFenceAux (pre ++ ('`' :: '`' :: '`'
        :: (body ++ ('`' :: '`' :: '`' :: post)))) = some body := by
      rw [stripFenceAux_prefix_skip pre ('`' :: '`' :: '`'
        :: (body ++ ('`' :: '`' :: '`' :: post))) hpre]
      exact stripFenceAux_plain_fence body post hjson h
    simp only [unwrapResponse, hstrip]
  · intro raw h
    simp only [unwrapResponse, stripFenceAux_of_no_fence raw.data h]
  · intro pre tail hpre htail
    have hstrip : stripFenceAux (pre ++ ('`' :: '`' :: '`' :: tail))
        = none := by
      rw [stripFenceAux_prefix_skip pre ('`' :: '`' :: '`' :: tail) hpre]
      exact (stripFenceAux_backtick_run tail.length tail le_rfl htail).1
    simp only [unwrapResponse, hstrip]
  · intro J jparse raw v
    rw [parse_json_response]
    cases hj : jparse (unwrapResponse raw) with
    | ok w => simp
    | error e => simp
  · intro J jparse raw err hj
    rw [parse_json_response, hj]

/-- Witness for C8 on concrete texts: a `json`-tagged fence and a plain
fence each preceded by prose, an unfenced text, an unclosed fence preceded
by prose, and a parser applied to each side of the error contract. -/
theorem parse_response_fence_and_errors_witness :
    unwrapResponse (String.mk (('H' :: 'i' :: '\n' :: [])
        ++ ('`' :: '`' :: '`' :: 'j' :: 's' :: 'o' :: 'n'
          :: (('\n' :: 'x' :: '\n' :: []) ++ ('`' :: '`' :: '`' :: [])))))
      = String.mk (pyStrip ('\n' :: 'x' :: '\n' :: [])) ∧
    unwrapResponse (String.mk (('H' :: 'i' :: '\n' :: [])
        ++ ('`' :: '`' :: '`'
          :: (('\n' :: 'x' :: '\n' :: []) ++ ('`' :: '`' :: '`' :: [])))))
      = String.mk (pyStrip ('\n' :: 'x' :: '\n' :: [])) ∧
    unwrapResponse " x " = String.mk (pyStrip " x ".data) ∧
    unwrapResponse (String.mk (('H' :: 'i' :: [])
        ++ ('`' :: '`' :: '`' :: ('x' :: []))))
      = String.mk (pyStrip (('H' :: 'i' :: [])
        ++ ('`' :: '`' :: '`' :: ('x' :: [])))) ∧
    (parse_json_response (fun s => if s = "x" then Except.ok true
        else Except.error "bad") "  x  " = Except.ok true ↔
      (fun s => if s = "x" then Except.ok true else Except.error "bad")
        (unwrapResponse "  x  ") = Except.ok true) ∧
    parse_json_response (fun s => if s = "x" then Except.ok true
        else Except.error "bad") "yy" = Except.error ("yy", "bad") :=
  ⟨parse_response_fence_and_errors.1 ('H' :: 'i' :: '\n' :: [])
      ('\n' :: 'x' :: '\n' :: []) [] rfl rfl,
    parse_response_fence_and_errors.2.1 ('H' :: 'i' :: '\n' :: [])
      ('\n' :: 'x' :: '\n' :: []) [] rfl rfl rfl,
    parse_response_fence_and_errors.2.2.1 " x " rfl,
    parse_response_fence_and_errors.2.2.2.1 ('H' :: 'i' :: [])
      ('x' :: []) rfl rfl,
    parse_response_fence_and_errors.2.2.2.2.1 Bool
      (fun s => if s = "x" then Except.ok true else Except.error "bad")
      "  x  " true,
    parse_response_fence_and_errors.2.2.2.2.2 Bool
      (fun s => if s = "x" then Except.ok true else Except.error "bad")
      "yy" "bad" rfl⟩

end Finops
